import Mathlib

/-!
# DNS query pipeline of clash-core (`dns/middleware.go`, `dns/hosts.go`)

A shallow embedding of the middleware chain: every handler is a function from
the request and the mutable surroundings (query context, mapping cache,
address pool, upstream resolver, clock) to an outcome that carries the
surroundings as the handler left them. The hosts table of `LoadHosts` is a
function of the lines of the hosts file and of the order in which Go visits
its maps.
-/

namespace Dns

/-! ## Addresses (`net.IP`) -/

/-- An address as Go keeps it: a slice of bytes, of length 4 or 16 when valid. -/
abbrev IP := List Nat

def IPv4len : Nat := 4

def IPv6len : Nat := 16

/-- The twelve bytes that precede an IPv4 address in its 16-byte form. -/
def v4InV6Prefix : List Nat := [0, 0, 0, 0, 0, 0, 0, 0, 0, 0, 0xff, 0xff]

def isZeros (p : List Nat) : Bool := p.all (fun b => b == 0)

/-- Go `IP.To4`: the 4-byte form of an IPv4 address, `none` (nil) otherwise. -/
def To4 (ip : IP) : Option IP :=
  if ip.length = IPv4len then some ip
  else if ip.length = IPv6len && isZeros (ip.take 10) && ip.getD 10 0 == 0xff
      && ip.getD 11 0 == 0xff then
    some ((ip.drop 12).take 4)
  else none

/-- Go `IP.To16`: the 16-byte form of any valid address, `none` (nil) otherwise. -/
def To16 (ip : IP) : Option IP :=
  if ip.length = IPv4len then some (v4InV6Prefix ++ ip)
  else if ip.length = IPv6len then some ip
  else none

/-! ## Strings (`strings.TrimRight`, `strings.ToLower`) -/

def trimRightChars (cutset : List Char) : List Char → List Char
  | [] => []
  | c :: cs =>
    match trimRightChars cutset cs with
    | [] => if c ∈ cutset then [] else [c]
    | t :: ts => c :: t :: ts

/-- Go `strings.TrimRight`: drop every trailing character that is in `cutset`. -/
def TrimRight (s cutset : String) : String := ⟨trimRightChars cutset.data s.data⟩

/-- Go `strings.ToLower` on ASCII text, which is what a name parsed from the
wire and a line that `LoadHosts` reads consist of. Go also maps letters
outside ASCII (U+212A to k, for one), which this function leaves as they are;
no theorem below evaluates it on such a letter. -/
def ToLower (s : String) : String := ⟨s.data.map Char.toLower⟩

/-! ## Messages (`github.com/miekg/dns`) -/

def TypeA : Nat := 1

def TypePTR : Nat := 12

def TypeAAAA : Nat := 28

def TypeSVCB : Nat := 64

def TypeHTTPS : Nat := 65

def ClassINET : Nat := 1

def RcodeSuccess : Nat := 0

def OpcodeQuery : Nat := 0

structure Question where
  Name : String
  Qtype : Nat
  Qclass : Nat
deriving DecidableEq, Repr

structure RR_Header where
  Name : String
  Rrtype : Nat
  Class : Nat
  Ttl : Nat
deriving DecidableEq, Repr

/-- A resource record, by its Go dynamic type: the three record types the
middlewares build or inspect, and every other type with its payload kept raw. -/
inductive RR where
  | A (Hdr : RR_Header) (A : IP)
  | AAAA (Hdr : RR_Header) (AAAA : IP)
  | PTR (Hdr : RR_Header) (Ptr : String)
  | other (Hdr : RR_Header) (rdata : List Nat)
deriving DecidableEq, Repr

def RR.Header : RR → RR_Header
  | RR.A h _ => h
  | RR.AAAA h _ => h
  | RR.PTR h _ => h
  | RR.other h _ => h

/-- The record with the TTL of its header overwritten (`rr.Header().Ttl = ttl`). -/
def RR.setTtl (ttl : Nat) : RR → RR
  | RR.A h a => RR.A { h with Ttl := ttl } a
  | RR.AAAA h a => RR.AAAA { h with Ttl := ttl } a
  | RR.PTR h p => RR.PTR { h with Ttl := ttl } p
  | RR.other h d => RR.other { h with Ttl := ttl } d

/-- The message of miekg/dns: the header fields, then the four sections. -/
structure Msg where
  Id : Nat
  Response : Bool
  Opcode : Nat
  Authoritative : Bool
  Truncated : Bool
  RecursionDesired : Bool
  RecursionAvailable : Bool
  Zero : Bool
  AuthenticatedData : Bool
  CheckingDisabled : Bool
  Rcode : Nat
  Compress : Bool
  Question : List Question
  Answer : List RR
  Ns : List RR
  Extra : List RR
deriving DecidableEq, Repr

/-- The zero value `&D.Msg{}`. -/
def Msg.zero : Msg :=
  { Id := 0, Response := false, Opcode := 0, Authoritative := false, Truncated := false,
    RecursionDesired := false, RecursionAvailable := false, Zero := false,
    AuthenticatedData := false, CheckingDisabled := false, Rcode := 0, Compress := false,
    Question := [], Answer := [], Ns := [], Extra := [] }

/-- The deep copy `r.Copy()`: a value equal to the original. -/
def Msg.Copy (r : Msg) : Msg := r

/-- The miekg/dns `SetReply`: turn `dns` into a reply to `request`. -/
def Msg.SetReply (dns request : Msg) : Msg :=
  let dns := { dns with Id := request.Id, Response := true, Opcode := request.Opcode }
  let dns :=
    if dns.Opcode = OpcodeQuery then
      { dns with RecursionDesired := request.RecursionDesired,
                 CheckingDisabled := request.CheckingDisabled }
    else dns
  let dns := { dns with Rcode := RcodeSuccess }
  match request.Question with
  | q :: _ => { dns with Question := [q] }
  | [] => dns

/-- The miekg/dns `SetRcode`: `SetReply`, then the response code. -/
def Msg.SetRcode (dns request : Msg) (rcode : Nat) : Msg :=
  { dns.SetReply request with Rcode := rcode }

/-! ## The surroundings of a query -/

/-- The tags of `context.DNSContext`. -/
inductive DNSType where
  | Raw
  | Host
  | FakeIP
deriving DecidableEq, Repr

abbrev Error := String

/-- One `SetWithExpire(key, value, expire)` on the mapping cache; `expire` is an
instant in nanoseconds. -/
structure MappingEntry where
  key : String
  value : String
  expire : Nat
deriving DecidableEq, Repr

/-- What a handler can change. `tags` are the values given to `ctx.SetType`
on the query context, oldest first (the tag the context holds is the last);
`mapping` are the writes to the mapping cache, oldest first; `lookups` are the
hostnames given to `fakePool.Lookup`; `exchanges` are the requests given to
`resolver.Exchange`; `nowReads` counts the readings of `time.Now`. -/
structure World where
  tags : List DNSType
  mapping : List MappingEntry
  lookups : List String
  exchanges : List Msg
  nowReads : Nat
deriving DecidableEq, Repr

def World.SetType (w : World) (tp : DNSType) : World :=
  { w with tags := w.tags ++ [tp] }

/-- The tag the query context holds. -/
def World.tag (w : World) : Option DNSType := w.tags.getLast?

/-- How a call ends: it returns the Go pair `(msg, err)`, or it panics (an
index out of range, a nil message dereferenced); both with the surroundings
as they are at that point. -/
inductive Outcome where
  | ret (msg : Option Msg) (err : Option Error) (w : World)
  | panic (w : World)
deriving DecidableEq, Repr

def Outcome.world : Outcome → World
  | Outcome.ret _ _ w => w
  | Outcome.panic w => w

/-- The Go `handler`; the `ctx` pointer is the `tags` part of the world. -/
abbrev handler := Msg → World → Outcome

abbrev middleware := handler → handler

/-! ## `compose` -/

/-- The loop of `compose` with `k = i + 1` stages still to wrap. -/
def composeLoop (middlewares : List middleware) : Nat → handler → handler
  | 0, h => h
  | k + 1, h =>
    match middlewares.get? k with
    | some m => composeLoop middlewares k (m h)
    | none => h

def compose (middlewares : List middleware) (endpoint : handler) : handler :=
  composeLoop middlewares middlewares.length endpoint

/-! ## Collaborators that the middlewares only call -/

/-- The payload of a hosts-table node (`record.Data`, an `interface{}`): the
two dynamic types the type switch of `withHosts` names, and anything else. -/
inductive HostData where
  | ips (data : List IP)
  | ptrs (data : List String)
  | other
deriving DecidableEq, Repr

/-- Modelled from the spec: the lookup structure (component/trie is not among
the sources), which section 6 gives as `search(normalizedName) -> optional
Lookup Record`. -/
structure DomainTrie where
  Search : String → Option HostData

/-- Modelled from the spec: the address pool (component/fakeip is not among
the sources), which section 6 gives as `shouldSkip(hostname) -> bool` and
`lookup(hostname) -> address` (allocate-or-fetch). The address handed out may
depend on the hostnames looked up before. -/
structure Pool where
  ShouldSkipped : String → Bool
  Lookup : List String → String → IP

/-- The resolver as the handlers read it. `Exchange` is modelled from the
spec (dns/resolver.go is not among the sources), which section 6 gives as
`exchange(Query) -> (Answer, failure?)`; its result may depend on the requests
exchanged before. -/
structure Resolver where
  ipv6 : Bool
  localHosts : Option DomainTrie
  hosts : Option DomainTrie
  Exchange : List Msg → Msg → Option Msg × Option Error

/-- The two functions of the Go library whose results the mapping stage
stores: `net.IP.String`, and `time.Now` as the instant (in nanoseconds) that
its k-th reading returns. -/
structure GoLib where
  IPString : IP → String
  Now : Nat → Nat

/-- The Go `time.Second`, in nanoseconds. -/
def Second : Nat := 1000000000

/-- Modelled from the spec: `SetWithExpire` of the mapping cache (common/cache
is not among the sources), which section 6 gives as `setWithExpiry(key, value,
expiryInstant)`; the cache is kept as the sequence of its writes. -/
def World.SetWithExpire (w : World) (key value : String) (expire : Nat) : World :=
  { w with mapping := w.mapping ++ [{ key := key, value := value, expire := expire }] }

/-! ## Helpers of dns/util.go -/

/-- Modelled from the spec: `isIPRequest` (dns/util.go is not among the
sources); section 4.2 names A and AAAA the queries "of type address". -/
def isIPRequest (q : Question) : Bool :=
  q.Qtype == TypeA || q.Qtype == TypeAAAA

/-- Modelled from the spec: `isIPorPTRRequest` (dns/util.go is not among the
sources); section 4.2: the hosts stage "only engages for queries of type
address (A/AAAA) or pointer (PTR)". -/
def isIPorPTRRequest (q : Question) : Bool :=
  q.Qtype == TypeA || q.Qtype == TypeAAAA || q.Qtype == TypePTR

/-- Modelled from the spec: `handleMsgWithEmptyAnswer` (dns/util.go is not
among the sources); sections 4.2, 4.3 and 4.5: "a successful-but-empty
answer", marked like every short-circuit answer successful, authoritative and
recursion-available. -/
def handleMsgWithEmptyAnswer (r : Msg) : Msg :=
  let msg := { Msg.zero with Answer := [] }
  let msg := msg.SetRcode r RcodeSuccess
  { msg with Authoritative := true, RecursionAvailable := true }

/-- Modelled from the spec: `setMsgTTL` (dns/util.go is not among the
sources); section 4.3 step 5: "force the entire outgoing answer's TTL". -/
def setMsgTTL (msg : Msg) (ttl : Nat) : Msg :=
  { msg with Answer := msg.Answer.map (RR.setTtl ttl),
             Ns := msg.Ns.map (RR.setTtl ttl),
             Extra := msg.Extra.map (RR.setTtl ttl) }

/-! ## `withHosts` -/

/-- One round of the loop over an address list (lines 40-59). -/
def hostsAppendIP (q : Question) (answer : List RR) (ip : IP) : List RR :=
  if q.Qtype = TypeA then
    match To4 ip with
    | some v4 =>
      answer ++ [RR.A { Name := q.Name, Rrtype := TypeA, Class := ClassINET, Ttl := 60 } v4]
    | none => answer
  else if q.Qtype = TypeAAAA then
    match To16 ip with
    | some v6 =>
      answer ++ [RR.AAAA { Name := q.Name, Rrtype := TypeAAAA, Class := ClassINET, Ttl := 60 } v6]
    | none => answer
  else answer

/-- The loop over a pointer list (lines 61-72); `none` is the return from
inside the loop. -/
def hostsPtrLoop (q : Question) : List String → List RR → Option (List RR)
  | [], answer => some answer
  | ptr :: rest, answer =>
    if q.Qtype = TypePTR then
      hostsPtrLoop q rest
        (answer ++ [RR.PTR { Name := q.Name, Rrtype := TypePTR, Class := ClassINET, Ttl := 60 } ptr])
    else none

def withHosts (hosts : DomainTrie) : middleware := fun next r w =>
  match r.Question with
  | [] => Outcome.panic w
  | q :: _ =>
    if !isIPorPTRRequest q then next r w
    else
      match hosts.Search (ToLower (TrimRight q.Name ".")) with
      | none => next r w
      | some data =>
        let msg := r.Copy
        let filled : Option Msg :=
          match data with
          | HostData.ips l => some { msg with Answer := l.foldl (hostsAppendIP q) msg.Answer }
          | HostData.ptrs l =>
            (hostsPtrLoop q l msg.Answer).map (fun a => { msg with Answer := a })
          | HostData.other => some msg
        match filled with
        | none => Outcome.ret (some (handleMsgWithEmptyAnswer r)) none w
        | some msg =>
          if msg.Answer.length > 0 then
            let w := w.SetType DNSType.Host
            let msg := msg.SetRcode r RcodeSuccess
            let msg := { msg with Authoritative := true }
            let msg := { msg with RecursionAvailable := true }
            Outcome.ret (some msg) none w
          else next r w

/-! ## `withMapping` -/

/-- The loop over the answer records (lines 105-121). -/
def mappingLoop (lib : GoLib) (host : String) : List RR → World → World
  | [], w => w
  | RR.A hdr a :: rest, w =>
    mappingLoop lib host rest
      ({ w with nowReads := w.nowReads + 1 }.SetWithExpire (lib.IPString a) host
        (lib.Now w.nowReads + Second * hdr.Ttl))
  | RR.AAAA hdr a :: rest, w =>
    mappingLoop lib host rest
      ({ w with nowReads := w.nowReads + 1 }.SetWithExpire (lib.IPString a) host
        (lib.Now w.nowReads + Second * hdr.Ttl))
  | _ :: rest, w => mappingLoop lib host rest w

/-- The mapping stage; the cache behind the `mapping` pointer is the
`mapping` part of the world. -/
def withMapping (lib : GoLib) : middleware := fun next r w =>
  match r.Question with
  | [] => Outcome.panic w
  | q :: _ =>
    if !isIPRequest q then next r w
    else
      match next r w with
      | Outcome.panic w1 => Outcome.panic w1
      | Outcome.ret _ (some err) w1 => Outcome.ret none (some err) w1
      | Outcome.ret none none w1 => Outcome.panic w1
      | Outcome.ret (some msg) none w1 =>
        let host := TrimRight q.Name "."
        Outcome.ret (some msg) none (mappingLoop lib host msg.Answer w1)

/-! ## `withFakeIP` -/

/-- The fake-address stage; `dnsDefaultTTL` is the package constant of that
name, whose declaration is not among the sources. -/
def withFakeIP (dnsDefaultTTL : Nat) (fakePool : Pool) : middleware := fun next r w =>
  match r.Question with
  | [] => Outcome.panic w
  | q :: _ =>
    let host := TrimRight q.Name "."
    if fakePool.ShouldSkipped host then next r w
    else if q.Qtype = TypeAAAA ∨ q.Qtype = TypeSVCB ∨ q.Qtype = TypeHTTPS then
      Outcome.ret (some (handleMsgWithEmptyAnswer r)) none w
    else if q.Qtype ≠ TypeA then next r w
    else
      let hdr : RR_Header :=
        { Name := q.Name, Rrtype := TypeA, Class := ClassINET, Ttl := dnsDefaultTTL }
      let ip := fakePool.Lookup w.lookups host
      let w := { w with lookups := w.lookups ++ [host] }
      let rr := RR.A hdr ip
      let msg := { r.Copy with Answer := [rr] }
      let w := w.SetType DNSType.FakeIP
      let msg := setMsgTTL msg 1
      let msg := msg.SetRcode r RcodeSuccess
      let msg := { msg with Authoritative := true }
      let msg := { msg with RecursionAvailable := true }
      Outcome.ret (some msg) none w

/-! ## `withResolver` -/

def withResolver (resolver : Resolver) : handler := fun r w =>
  let w := w.SetType DNSType.Raw
  match r.Question with
  | [] => Outcome.panic w
  | q :: _ =>
    if !resolver.ipv6 && q.Qtype == TypeAAAA then
      Outcome.ret (some (handleMsgWithEmptyAnswer r)) none w
    else
      let res := resolver.Exchange w.exchanges r
      let w := { w with exchanges := w.exchanges ++ [r] }
      match res with
      | (msg, some err) => Outcome.ret msg (some err) w
      | (none, none) => Outcome.panic w
      | (some msg, none) =>
        let msg := msg.SetRcode r msg.Rcode
        let msg := { msg with Authoritative := true }
        Outcome.ret (some msg) none w

/-! ## What the specification expects, in its own words -/

/-- The answer section the specification expects of an A query answered from
an address list: one A record per IPv4-mappable address, in table order, with
the name of the query, class INET and TTL 60. -/
def expectedARecords (q : Question) (l : List IP) : List RR :=
  l.filterMap (fun ip =>
    (To4 ip).map (fun v4 =>
      RR.A { Name := q.Name, Rrtype := TypeA, Class := ClassINET, Ttl := 60 } v4))

/-- The address and TTL of an A or AAAA record; `none` for any other record. -/
def addressOf : RR → Option (IP × Nat)
  | RR.A hdr a => some (a, hdr.Ttl)
  | RR.AAAA hdr a => some (a, hdr.Ttl)
  | _ => none

/-- The cache entries the specification expects of an answer section: for
each A or AAAA record, in order, the textual address mapped to the bare
hostname, expiring the record's TTL in seconds after the reading of the clock
taken for that record (`k` numbers the readings). -/
def expectedEntries (lib : GoLib) (host : String) : Nat → List RR → List MappingEntry
  | _, [] => []
  | k, rr :: rest =>
    match addressOf rr with
    | some (ip, ttl) =>
      { key := lib.IPString ip, value := host, expire := lib.Now k + Second * ttl }
        :: expectedEntries lib host (k + 1) rest
    | none => expectedEntries lib host k rest

/-! ## Sample inputs -/

def sampleWorld : World :=
  { tags := [], mapping := [], lookups := [], exchanges := [], nowReads := 0 }

/-- A request with one question and nothing else. -/
def sampleRequest (name : String) (qtype : Nat) : Msg :=
  { Msg.zero with
      Id := 4660, RecursionDesired := true,
      Question := [{ Name := name, Qtype := qtype, Qclass := ClassINET }] }

/-- A hosts table with an address list (one IPv4 and one IPv6 address), a
pointer list, and an empty pointer list. -/
def sampleHosts : DomainTrie :=
  { Search := fun n =>
      if n = "example.com" then
        some (HostData.ips [[192, 0, 2, 1], [32, 1, 13, 184, 0, 0, 0, 0, 0, 0, 0, 0, 0, 0, 0, 1]])
      else if n = "1.2.0.192.in-addr.arpa" then some (HostData.ptrs ["example.com."])
      else if n = "empty.example" then some (HostData.ptrs [])
      else none }

/-- A downstream handler that fails. -/
def sampleFailing : handler := fun _ w => Outcome.ret none (some "upstream unreachable") w

/-- An address pool that exempts one hostname. -/
def samplePool : Pool :=
  { ShouldSkipped := fun host => host == "skip.example",
    Lookup := fun _ host => [198, 18, 0, host.length] }

/-- The decimal text of a byte. -/
def sampleByteText (n : Nat) : String :=
  let d (k : Nat) : Char := Char.ofNat (48 + k % 10)
  if n < 10 then ⟨[d n]⟩
  else if n < 100 then ⟨[d (n / 10), d n]⟩
  else ⟨[d (n / 100), d (n / 10), d n]⟩

/-- A library whose textual form of an address is its bytes in dotted
decimal, and whose clock advances a nanosecond with each reading. -/
def sampleLib : GoLib :=
  { IPString := fun ip => ".".intercalate (ip.map sampleByteText),
    Now := fun k => 1700000000 * Second + k }

/-- An answer with a CNAME-like record between an A and an AAAA record. -/
def sampleAnswer (r : Msg) : Msg :=
  { r with
      Response := true,
      Answer :=
        [RR.A { Name := "example.com.", Rrtype := TypeA, Class := ClassINET, Ttl := 300 }
           [93, 184, 216, 34],
         RR.other { Name := "example.com.", Rrtype := 5, Class := ClassINET, Ttl := 30 } [],
         RR.AAAA { Name := "example.com.", Rrtype := TypeAAAA, Class := ClassINET, Ttl := 20 }
           [32, 1, 13, 184, 0, 0, 0, 0, 0, 0, 0, 0, 0, 0, 0, 1]] }

/-- A downstream handler that succeeds with `sampleAnswer`. -/
def sampleAnswering : handler := fun r w => Outcome.ret (some (sampleAnswer r)) none w

/-- A resolver with IPv6 disabled whose exchange always succeeds. -/
def sampleResolver : Resolver :=
  { ipv6 := false, localHosts := none, hosts := none,
    Exchange := fun _ r => (some (sampleAnswer r), none) }

/-! ## `newHandler` -/

/-- Modelled from the spec: the resolver modes (constant/dns.go is not among
the sources); section 6: "a closed set of resolver modes {Normal, FakeAddress,
MappingOnly} (and any others the surrounding system defines)". -/
inductive DNSMode where
  | DNSNormal
  | DNSFakeIP
  | DNSMapping
  | other (n : Nat)
deriving DecidableEq, Repr

/-- The enhancer as `newHandler` reads it (dns/enhancer.go is not among the
sources): its mode and its address pool; its mapping cache is the `mapping`
part of the world. -/
structure ResolverEnhancer where
  mode : DNSMode
  fakePool : Pool

/-- The pipeline of a configuration. `lib` and `dnsDefaultTTL` are the Go
library functions and the package constant that the stages use. -/
def newHandler (lib : GoLib) (dnsDefaultTTL : Nat) (resolver : Resolver)
    (mapper : ResolverEnhancer) : handler :=
  let middlewares : List middleware := []
  let middlewares :=
    match resolver.localHosts with
    | some localHosts => middlewares ++ [withHosts localHosts]
    | none => middlewares
  let middlewares :=
    match resolver.hosts with
    | some hosts => middlewares ++ [withHosts hosts]
    | none => middlewares
  let middlewares :=
    if mapper.mode = DNSMode.DNSFakeIP then
      middlewares ++ [withFakeIP dnsDefaultTTL mapper.fakePool]
    else middlewares
  let middlewares :=
    if mapper.mode ≠ DNSMode.DNSNormal then middlewares ++ [withMapping lib]
    else middlewares
  compose middlewares (withResolver resolver)

/-- The hosts stages the specification installs: the local table, then the
secondary table, each when present. -/
def expectedHostsStages (resolver : Resolver) : List middleware :=
  (match resolver.localHosts with
    | some t => [withHosts t]
    | none => [])
  ++ (match resolver.hosts with
    | some t => [withHosts t]
    | none => [])

/-- The stages the specification installs, in its fixed order: local hosts,
secondary hosts, fake address (in FakeIP mode), mapping capture (in every mode
but Normal). -/
def expectedStages (lib : GoLib) (dnsDefaultTTL : Nat) (resolver : Resolver)
    (mapper : ResolverEnhancer) : List middleware :=
  expectedHostsStages resolver
  ++ (if mapper.mode = DNSMode.DNSFakeIP then [withFakeIP dnsDefaultTTL mapper.fakePool] else [])
  ++ (if mapper.mode ≠ DNSMode.DNSNormal then [withMapping lib] else [])

/-- The handler behind the hosts stages: the fake-address stage when the mode
installs it, over the mapping stage when the mode installs it, over the
upstream responder. -/
def afterHosts (lib : GoLib) (dnsDefaultTTL : Nat) (resolver : Resolver)
    (mapper : ResolverEnhancer) : handler :=
  let upstream : handler :=
    if mapper.mode ≠ DNSMode.DNSNormal then withMapping lib (withResolver resolver)
    else withResolver resolver
  if mapper.mode = DNSMode.DNSFakeIP then withFakeIP dnsDefaultTTL mapper.fakePool upstream
  else upstream

/-- A resolver with IPv6 disabled and `sampleHosts` as its local table. -/
def sampleResolverWithHosts : Resolver :=
  { ipv6 := false, localHosts := some sampleHosts, hosts := none,
    Exchange := fun _ _ => (none, some "upstream unreachable") }

def sampleEnhancer (mode : DNSMode) : ResolverEnhancer :=
  { mode := mode, fakePool := samplePool }

/-! ## What a stage does when it answers by itself -/

/-- The reply of the hosts stage with `answer` as its Answer section (lines
75-81 of `withHosts`). -/
def hostsReply (r : Msg) (answer : List RR) : Msg :=
  { Msg.SetRcode { r.Copy with Answer := answer } r RcodeSuccess with
      Authoritative := true, RecursionAvailable := true }

/-- The reply of the fake-address stage for question `q` and address `ip`
(lines 147-158 of `withFakeIP`). -/
def fakeReply (dnsDefaultTTL : Nat) (ip : IP) (r : Msg) (q : Question) : Msg :=
  let hdr : RR_Header :=
    { Name := q.Name, Rrtype := TypeA, Class := ClassINET, Ttl := dnsDefaultTTL }
  { Msg.SetRcode (setMsgTTL { r.Copy with Answer := [RR.A hdr ip] } 1) r RcodeSuccess with
      Authoritative := true, RecursionAvailable := true }

/-- The ways the hosts stage ends a call by itself: the panic on a request
without question, the empty answer, or a reply with records tagged Host. -/
def HostsOwn (r : Msg) (w : World) (o : Outcome) : Prop :=
  (r.Question = [] ∧ o = Outcome.panic w)
  ∨ o = Outcome.ret (some (handleMsgWithEmptyAnswer r)) none w
  ∨ ∃ answer : List RR,
      answer ≠ [] ∧ o = Outcome.ret (some (hostsReply r answer)) none (w.SetType DNSType.Host)

/-- The ways the fake-address stage ends a call by itself: the panic on a
request without question, the empty answer, or the synthesized A answer
tagged FakeIP after one lookup in the pool. -/
def FakeOwn (r : Msg) (w : World) (o : Outcome) : Prop :=
  (r.Question = [] ∧ o = Outcome.panic w)
  ∨ o = Outcome.ret (some (handleMsgWithEmptyAnswer r)) none w
  ∨ ∃ (m : Msg) (q : Question) (qs : List Question),
      r.Question = q :: qs ∧ q.Qtype = TypeA
      ∧ o = Outcome.ret (some m) none
          ({ w with lookups := w.lookups ++ [TrimRight q.Name "."] }.SetType DNSType.FakeIP)

/-- A resolver without hosts table whose exchange always fails. -/
def sampleResolverFailing : Resolver :=
  { ipv6 := true, localHosts := none, hosts := none,
    Exchange := fun _ _ => (none, some "upstream unreachable") }

/-- A hosts table with one name that has one IPv6 address. -/
def sampleHostsV6 : DomainTrie :=
  { Search := fun n =>
      if n = "v6.example" then
        some (HostData.ips [[32, 1, 13, 184, 0, 0, 0, 0, 0, 0, 0, 0, 0, 0, 0, 1]])
      else none }

/-- A resolver with IPv6 disabled and `sampleHostsV6` as its secondary table. -/
def sampleResolverV6Hosts : Resolver :=
  { ipv6 := false, localHosts := none, hosts := some sampleHostsV6,
    Exchange := fun _ _ => (none, some "upstream unreachable") }

/-! ## `LoadHosts` (`dns/hosts.go`) -/

/-- Go `unicode.IsSpace`: the white space of Unicode. -/
def isSpace (c : Char) : Bool :=
  let n := c.toNat
  n == 0x20 || (0x09 ≤ n && n ≤ 0x0d) || n == 0x85 || n == 0xa0 || n == 0x1680
    || (0x2000 ≤ n && n ≤ 0x200a) || n == 0x2028 || n == 0x2029 || n == 0x202f
    || n == 0x205f || n == 0x3000

/-- Go `strings.TrimSpace`: drop the leading and the trailing white space, "as
defined by Unicode". -/
def TrimSpace (s : String) : String :=
  ⟨((s.data.dropWhile isSpace).reverse.dropWhile isSpace).reverse⟩

/-- Go `strings.HasPrefix`. -/
def HasPrefix (s p : String) : Bool := p.data.isPrefixOf s.data

/-- Modelled from the spec: `containNonASCII` (its file is not among the
sources); section 6: "non-ASCII lines ignored". -/
def containNonASCII (s : String) : Bool := s.data.any (fun c => c.toNat > 127)

/-- The words of `bufio.ScanWords`: `cur` holds the word being read, latest
character first. -/
def scanWordsLoop : List Char → List Char → List String
  | [], cur => if cur.isEmpty then [] else [⟨cur.reverse⟩]
  | c :: cs, cur =>
    if isSpace c then
      if cur.isEmpty then scanWordsLoop cs [] else ⟨cur.reverse⟩ :: scanWordsLoop cs []
    else scanWordsLoop cs (c :: cur)

/-- The tokens that a scanner split with `bufio.ScanWords` yields for a line. -/
def ScanWords (line : String) : List String := scanWordsLoop line.data []

/-- A Go map with string keys, as its entries in the order of first insertion. -/
abbrev GoMap (α : Type) := List (String × α)

/-- The statement `m[key] = append(m[key], v)`. -/
def GoMap.append {α : Type} : GoMap (List α) → String → α → GoMap (List α)
  | [], key, v => [(key, [v])]
  | (k, vs) :: rest, key, v =>
    if k = key then (k, vs ++ [v]) :: rest else (k, vs) :: GoMap.append rest key v

/-- The order in which `range` visits the entries of the two maps of
`LoadHosts`; Go leaves the order of a map open. -/
structure MapOrder where
  ips : GoMap (List IP) → GoMap (List IP)
  ptrs : GoMap (List String) → GoMap (List String)

/-- Modelled from the spec: `trie.New` (component/trie is not among the
sources): the lookup structure without any record. -/
def DomainTrie.New : DomainTrie := { Search := fun _ => none }

/-- Modelled from the spec: `Insert` of the lookup structure (component/trie
is not among the sources): a record is attached to a name, and section 3 has
the payload of a record "fixed at insertion and never mixed", so a second
insertion under a name replaces the record. -/
def DomainTrie.Insert (t : DomainTrie) (domain : String) (data : HostData) : DomainTrie :=
  { Search := fun n => if n = domain then some data else t.Search n }

/-- The loop over the words of one line (lines 44-58); `ip` is the address
read so far, `none` for nil. `ParseIP` is `net.ParseIP`, and `IPtoPTR` the
helper of that name, whose file is not among the sources. -/
def hostsWordsLoop (ParseIP : String → Option IP) (IPtoPTR : IP → String) :
    List String → Option IP → GoMap (List IP) × GoMap (List String) →
      GoMap (List IP) × GoMap (List String)
  | [], _, hp => hp
  | name :: rest, none, hp =>
    match ParseIP name with
    | none => hp
    | some ip => hostsWordsLoop ParseIP IPtoPTR rest (some ip) hp
  | name :: rest, some ip, (h, p) =>
    hostsWordsLoop ParseIP IPtoPTR rest (some ip)
      (GoMap.append h name ip, GoMap.append p (IPtoPTR ip) (name ++ "."))

/-- One round of the loop over the lines (lines 27-59) for the text `text`
that `sc.Text()` gives. -/
def hostsLine (ParseIP : String → Option IP) (IPtoPTR : IP → String)
    (hp : GoMap (List IP) × GoMap (List String)) (text : String) :
    GoMap (List IP) × GoMap (List String) :=
  let line := TrimSpace text
  if HasPrefix line "//" || HasPrefix line "#" then hp
  else if containNonASCII line then hp
  else hostsWordsLoop ParseIP IPtoPTR (ScanWords line) none hp

/-- Go `bufio.MaxScanTokenSize`: the size of the buffer that a scanner made by
`bufio.NewScanner` does not outgrow. -/
def MaxScanTokenSize : Nat := 64 * 1024

/-- Go `dropCR` of `bufio.ScanLines`: the line without one carriage return at
its end. -/
def dropCR (s : String) : String :=
  match s.data.reverse with
  | c :: rest => if c = Char.ofNat 13 then ⟨rest.reverse⟩ else s
  | [] => s

/-- The texts that `sc.Scan()` and `sc.Text()` give for a file whose lines
(the texts between the line feeds) are `lines`: each line without its carriage
return, up to the first line that does not fit the buffer of the scanner; a
line of `MaxScanTokenSize` bytes or more ends the scan (lines 26-27 check no
`sc.Err`), and what follows it is not read. -/
def scanLines (lines : List String) : List String :=
  (lines.takeWhile (fun l => l.utf8ByteSize < MaxScanTokenSize)).map dropCR

/-- The hosts table of a hosts file. `file` is `none` when the file cannot be
opened, and else its lines (the texts between the line feeds), in order. -/
def LoadHosts (ParseIP : String → Option IP) (IPtoPTR : IP → String) (order : MapOrder)
    (file : Option (List String)) : Option DomainTrie :=
  match file with
  | none => none
  | some lines =>
    let hp := (scanLines lines).foldl (hostsLine ParseIP IPtoPTR) ([], [])
    let t := DomainTrie.New
    let t := (order.ips hp.1).foldl
      (fun t entry => t.Insert (ToLower entry.1) (HostData.ips entry.2)) t
    let t := (order.ptrs hp.2).foldl
      (fun t entry => t.Insert entry.1 (HostData.ptrs entry.2)) t
    some t

/-! ## Sample hosts files -/

def sampleSplitDots : List Char → List (List Char)
  | [] => [[]]
  | c :: cs =>
    match sampleSplitDots cs with
    | [] => [[]]
    | p :: ps => if c = '.' then [] :: p :: ps else (c :: p) :: ps

def sampleNumber (cs : List Char) : Option Nat :=
  if cs.isEmpty || !cs.all Char.isDigit then none
  else some (cs.foldl (fun n c => 10 * n + (c.toNat - 48)) 0)

/-- A parser of addresses in dotted decimal that, like `net.ParseIP`, gives
the 16-byte form; it knows no other way of writing an address. -/
def sampleParseIP (s : String) : Option IP :=
  match (sampleSplitDots s.data).map sampleNumber with
  | [some a, some b, some c, some d] =>
    if a < 256 && b < 256 && c < 256 && d < 256 then some (v4InV6Prefix ++ [a, b, c, d])
    else none
  | _ => none

/-- The reverse-lookup name of an IPv4 address. -/
def sampleIPtoPTR (ip : IP) : String :=
  match To4 ip with
  | some v4 => ".".intercalate (v4.reverse.map sampleByteText) ++ ".in-addr.arpa"
  | none => "ip6.arpa"

/-- The order of first insertion. -/
def sampleOrderFirst : MapOrder := { ips := fun m => m, ptrs := fun m => m }

/-- The reverse of the order of first insertion. -/
def sampleOrderLast : MapOrder := { ips := fun m => m.reverse, ptrs := fun m => m.reverse }

/-- A hosts table with one name that has one IPv4 address. -/
def sampleHostsV4 : DomainTrie :=
  { Search := fun n => if n = "v4.example" then some (HostData.ips [[192, 0, 2, 1]]) else none }

/-- The condition under which a line adds nothing to the maps of `LoadHosts`:
its trimmed text is a comment, or holds a character that is not ASCII, or its
first word is no address. -/
def lineIgnored (ParseIP : String → Option IP) (text : String) : Prop :=
  HasPrefix (TrimSpace text) "#" = true
  ∨ HasPrefix (TrimSpace text) "//" = true
  ∨ containNonASCII (TrimSpace text) = true
  ∨ ∃ (tok : String) (rest : List String),
      ScanWords (TrimSpace text) = tok :: rest ∧ ParseIP tok = none

/-- The condition under which a hosts table has no reply of its own to an
AAAA request `r` for the normalized name `name`: it has no record for the
name, or a pointer list with at least one name (which gives the empty answer),
or, the request carrying no answer record, no address list holding an address
that `To16` accepts. -/
def noHostsReply (t : DomainTrie) (r : Msg) (name : String) : Prop :=
  t.Search name = none
  ∨ (∃ l : List String, t.Search name = some (HostData.ptrs l) ∧ l ≠ [])
  ∨ (r.Answer = []
      ∧ ∀ l : List IP, t.Search name = some (HostData.ips l) → ∀ ip ∈ l, To16 ip = none)

/-! ## Theorems -/

theorem composeLoop_take (ms : List middleware) :
    ∀ (k : Nat) (h : handler), k ≤ ms.length →
      composeLoop ms k h = (ms.take k).foldr (fun m g => m g) h := by
  intro k
  induction k with
  | zero => intro h _; simp [composeLoop]
  | succ k ih =>
    intro h hk
    have hlt : k < ms.length := hk
    rw [composeLoop, List.get?_eq_get hlt]
    simp only
    rw [ih _ (Nat.le_of_lt hlt)]
    have htake : ms.take (k + 1) = ms.take k ++ [ms.get ⟨k, hlt⟩] := by
      rw [List.take_succ, List.getElem?_eq_getElem hlt]
      rfl
    rw [htake, List.foldr_append]
    rfl

/-- C1: `compose middlewares endpoint` is the right fold of application over
the list with the endpoint as seed; with no middleware it is the endpoint, and
the first middleware of the list is the outermost one. -/
theorem compose_eq_foldr (middlewares : List middleware) (endpoint : handler) :
    compose middlewares endpoint = middlewares.foldr (fun m h => m h) endpoint
      ∧ compose [] endpoint = endpoint
      ∧ ∀ (m0 : middleware) (rest : List middleware),
          compose (m0 :: rest) endpoint = m0 (compose rest endpoint) := by
  have key : ∀ ms : List middleware,
      compose ms endpoint = ms.foldr (fun m h => m h) endpoint := by
    intro ms
    unfold compose
    rw [composeLoop_take ms ms.length endpoint (Nat.le_refl _), List.take_length]
  refine ⟨key middlewares, key [], ?_⟩
  intro m0 rest
  rw [key, key, List.foldr_cons]

/-! ### `withHosts` -/

theorem foldl_hostsAppendIP_A (q : Question) (hA : q.Qtype = TypeA) (l : List IP) :
    ∀ acc : List RR, l.foldl (hostsAppendIP q) acc = acc ++ expectedARecords q l := by
  induction l with
  | nil => intro acc; simp [expectedARecords]
  | cons ip rest ih =>
    intro acc
    rw [List.foldl_cons, ih]
    cases h4 : To4 ip with
    | none => simp [hostsAppendIP, hA, h4, expectedARecords]
    | some v4 => simp [hostsAppendIP, hA, h4, expectedARecords]

theorem expectedARecords_ne_nil (q : Question) (l : List IP)
    (h : ∃ ip ∈ l, (To4 ip).isSome = true) : expectedARecords q l ≠ [] := by
  obtain ⟨ip, hmem, hsome⟩ := h
  obtain ⟨v4, hv4⟩ := Option.isSome_iff_exists.mp hsome
  intro hnil
  have : RR.A { Name := q.Name, Rrtype := TypeA, Class := ClassINET, Ttl := 60 } v4
      ∈ expectedARecords q l := by
    unfold expectedARecords
    rw [List.mem_filterMap]
    exact ⟨ip, hmem, by simp [hv4]⟩
  rw [hnil] at this
  exact List.not_mem_nil _ this

theorem tag_SetType (w : World) (tp : DNSType) : (w.SetType tp).tag = some tp := by
  simp [World.SetType, World.tag]

/-- C2, the code at the failing input: an A query that itself carries a
record in its Answer section gets that record back, with its own TTL, in front
of the A record of the hosts table, so the Answer section is not exactly the
A records of the table. -/
theorem withHosts_A_keeps_request_answer :
    let q : Question := { Name := "Example.COM.", Qtype := TypeA, Qclass := ClassINET }
    let x : RR := RR.other { Name := "example.com.", Rrtype := 6, Class := ClassINET, Ttl := 300 } []
    let r : Msg := { sampleRequest "Example.COM." TypeA with Answer := [x] }
    r.Question = [q] ∧ q.Qtype = TypeA
      ∧ sampleHosts.Search (ToLower (TrimRight q.Name "."))
          = some (HostData.ips [[192, 0, 2, 1], [32, 1, 13, 184, 0, 0, 0, 0, 0, 0, 0, 0, 0, 0, 0, 1]])
      ∧ To4 [192, 0, 2, 1] = some [192, 0, 2, 1]
      ∧ ∃ m, withHosts sampleHosts sampleFailing r sampleWorld
            = Outcome.ret (some m) none (sampleWorld.SetType DNSType.Host)
          ∧ m.Answer = [x, RR.A { Name := "Example.COM.", Rrtype := TypeA, Class := ClassINET, Ttl := 60 } [192, 0, 2, 1]]
          ∧ m.Answer ≠ expectedARecords q [[192, 0, 2, 1], [32, 1, 13, 184, 0, 0, 0, 0, 0, 0, 0, 0, 0, 0, 0, 1]] := by
  refine ⟨rfl, rfl, by decide, by decide, _, rfl, by decide, by decide⟩

/-- What `withHosts` returns for an A query whose normalized name has an
address list with at least one IPv4-mappable address: without error and
without calling `next` (the same message whatever `next` is), an answer whose
Answer section is the Answer section of the request followed by one A record
per IPv4-mappable address, in table order, each with the name of the query,
class INET and TTL 60 (so exactly those A records when the request carries no
answer record); rcode Success, authoritative, recursion available, and the
context tagged Host. -/
theorem withHosts_A_query (hosts : DomainTrie) (r : Msg) (w : World)
    (q : Question) (qs : List Question) (l : List IP)
    (hq : r.Question = q :: qs) (hA : q.Qtype = TypeA)
    (hrec : hosts.Search (ToLower (TrimRight q.Name ".")) = some (HostData.ips l))
    (hv4 : ∃ ip ∈ l, (To4 ip).isSome = true) :
    ∃ m : Msg,
      (∀ next : handler,
        withHosts hosts next r w = Outcome.ret (some m) none (w.SetType DNSType.Host))
      ∧ m.Answer = r.Answer ++ expectedARecords q l
      ∧ (r.Answer = [] → m.Answer = expectedARecords q l)
      ∧ (∀ rr ∈ expectedARecords q l,
          rr.Header.Name = q.Name ∧ rr.Header.Class = ClassINET ∧ rr.Header.Ttl = 60)
      ∧ m.Rcode = RcodeSuccess ∧ m.Authoritative = true ∧ m.RecursionAvailable = true
      ∧ (w.SetType DNSType.Host).tag = some DNSType.Host := by
  have hguard : isIPorPTRRequest q = true := by simp [isIPorPTRRequest, hA]
  have hfold := foldl_hostsAppendIP_A q hA l r.Answer
  have hne : r.Answer ++ expectedARecords q l ≠ [] := by
    intro h
    exact expectedARecords_ne_nil q l hv4 (List.append_eq_nil.mp h).2
  have hlen : 0 < (r.Answer ++ expectedARecords q l).length := List.length_pos.mpr hne
  refine ⟨{ ({ r.Copy with Answer := r.Answer ++ expectedARecords q l }).SetRcode r RcodeSuccess
              with Authoritative := true, RecursionAvailable := true }, ?_, ?_, ?_, ?_, ?_, rfl, rfl,
          tag_SetType w _⟩
  · intro next
    simp only [withHosts, hq, hguard, hrec, Msg.Copy, hfold, Bool.not_true, Bool.false_eq_true,
      if_false, gt_iff_lt, hlen, if_true]
  · simp [Msg.SetRcode, Msg.SetReply, hq]
    split <;> rfl
  · intro hempty
    simp [Msg.SetRcode, Msg.SetReply, hq, hempty]
    split <;> simp [hempty]
  · intro rr hrr
    unfold expectedARecords at hrr
    rw [List.mem_filterMap] at hrr
    obtain ⟨ip, _, hip⟩ := hrr
    cases h4 : To4 ip with
    | none => simp [h4] at hip
    | some v4 =>
      simp [h4] at hip
      subst hip
      simp [RR.Header]
  · simp [Msg.SetRcode]

theorem withHosts_A_query_witness :
    (sampleRequest "Example.COM." TypeA).Question
        = [{ Name := "Example.COM.", Qtype := TypeA, Qclass := ClassINET }]
      ∧ ∃ m : Msg,
        (∀ next : handler,
          withHosts sampleHosts next (sampleRequest "Example.COM." TypeA) sampleWorld
            = Outcome.ret (some m) none (sampleWorld.SetType DNSType.Host))
        ∧ m.Answer = [RR.A { Name := "Example.COM.", Rrtype := TypeA, Class := ClassINET, Ttl := 60 } [192, 0, 2, 1]] := by
  refine ⟨rfl, ?_⟩
  obtain ⟨m, h1, h2, _⟩ :=
    withHosts_A_query sampleHosts (sampleRequest "Example.COM." TypeA) sampleWorld
      { Name := "Example.COM.", Qtype := TypeA, Qclass := ClassINET } []
      [[192, 0, 2, 1], [32, 1, 13, 184, 0, 0, 0, 0, 0, 0, 0, 0, 0, 0, 0, 1]]
      rfl rfl (by decide) ⟨[192, 0, 2, 1], by decide, by decide⟩
  refine ⟨m, h1, ?_⟩
  rw [h2]
  decide

theorem hostsPtrLoop_not_PTR (q : Question) (hq : q.Qtype ≠ TypePTR) (p : String)
    (ps : List String) (acc : List RR) : hostsPtrLoop q (p :: ps) acc = none := by
  simp [hostsPtrLoop, hq]

theorem handleMsgWithEmptyAnswer_shape (r : Msg) :
    (handleMsgWithEmptyAnswer r).Answer = [] ∧ (handleMsgWithEmptyAnswer r).Ns = []
      ∧ (handleMsgWithEmptyAnswer r).Extra = []
      ∧ (handleMsgWithEmptyAnswer r).Rcode = RcodeSuccess
      ∧ (handleMsgWithEmptyAnswer r).Authoritative = true
      ∧ (handleMsgWithEmptyAnswer r).RecursionAvailable = true := by
  refine ⟨?_, ?_, ?_, rfl, rfl, rfl⟩ <;>
    · simp only [handleMsgWithEmptyAnswer, Msg.SetRcode, Msg.SetReply]
      split <;> split <;> rfl

/-- C3, as the claim states it, fails for a pointer list of length zero: an
AAAA query for a name whose record is an empty pointer list is handed to
`next`, whose failure comes back instead of a successful empty answer. -/
theorem withHosts_empty_ptrs_delegates :
    let q : Question := { Name := "empty.example.", Qtype := TypeAAAA, Qclass := ClassINET }
    (sampleRequest "empty.example." TypeAAAA).Question = [q]
      ∧ isIPorPTRRequest q = true ∧ q.Qtype ≠ TypePTR
      ∧ sampleHosts.Search (ToLower (TrimRight q.Name ".")) = some (HostData.ptrs [])
      ∧ withHosts sampleHosts sampleFailing (sampleRequest "empty.example." TypeAAAA) sampleWorld
          = Outcome.ret none (some "upstream unreachable") sampleWorld := by
  refine ⟨rfl, by decide, by decide, by decide, by decide⟩

/-- C3, amended: for a query that passes the guard of the hosts stage with a
type other than PTR and whose normalized name has a pointer list with at least
one pointer name, `withHosts` returns, whatever `next` is (so without calling
it), no error and the successful empty answer: no record in any section,
rcode Success; the surroundings are left as they were. -/
theorem withHosts_ptrs_non_PTR (hosts : DomainTrie) (r : Msg) (w : World)
    (q : Question) (qs : List Question) (l : List String)
    (hq : r.Question = q :: qs) (hguard : isIPorPTRRequest q = true)
    (hnp : q.Qtype ≠ TypePTR)
    (hrec : hosts.Search (ToLower (TrimRight q.Name ".")) = some (HostData.ptrs l))
    (hl : l ≠ []) :
    (∀ next : handler,
      withHosts hosts next r w = Outcome.ret (some (handleMsgWithEmptyAnswer r)) none w)
      ∧ (handleMsgWithEmptyAnswer r).Answer = []
      ∧ (handleMsgWithEmptyAnswer r).Ns = []
      ∧ (handleMsgWithEmptyAnswer r).Extra = []
      ∧ (handleMsgWithEmptyAnswer r).Rcode = RcodeSuccess := by
  obtain ⟨ha, hn, he, hr, _, _⟩ := handleMsgWithEmptyAnswer_shape r
  refine ⟨?_, ha, hn, he, hr⟩
  intro next
  cases l with
  | nil => exact absurd rfl hl
  | cons p ps =>
    simp only [withHosts, hq, hguard, hrec, Msg.Copy, hostsPtrLoop_not_PTR q hnp,
      Bool.not_true, Bool.false_eq_true, if_false, Option.map_none']

theorem withHosts_ptrs_non_PTR_witness :
    (sampleRequest "1.2.0.192.in-addr.arpa." TypeA).Question
        = [{ Name := "1.2.0.192.in-addr.arpa.", Qtype := TypeA, Qclass := ClassINET }]
      ∧ ∀ next : handler,
        withHosts sampleHosts next (sampleRequest "1.2.0.192.in-addr.arpa." TypeA) sampleWorld
          = Outcome.ret
              (some (handleMsgWithEmptyAnswer (sampleRequest "1.2.0.192.in-addr.arpa." TypeA)))
              none sampleWorld :=
  ⟨rfl,
    (withHosts_ptrs_non_PTR sampleHosts (sampleRequest "1.2.0.192.in-addr.arpa." TypeA)
      sampleWorld { Name := "1.2.0.192.in-addr.arpa.", Qtype := TypeA, Qclass := ClassINET } []
      ["example.com."] rfl (by decide) (by decide) (by decide) (by decide)).1⟩

/-! ### `withFakeIP` -/

theorem SetRcode_sections (m r : Msg) (rcode : Nat) :
    (m.SetRcode r rcode).Answer = m.Answer ∧ (m.SetRcode r rcode).Ns = m.Ns
      ∧ (m.SetRcode r rcode).Extra = m.Extra ∧ (m.SetRcode r rcode).Rcode = rcode := by
  unfold Msg.SetRcode Msg.SetReply
  cases r.Question <;> by_cases h : r.Opcode = OpcodeQuery <;> simp [h]

theorem setTtl_Header_Ttl (ttl : Nat) (rr : RR) : (RR.setTtl ttl rr).Header.Ttl = ttl := by
  cases rr <;> rfl

/-- C4: for an A query whose bare hostname the pool does not exempt,
`withFakeIP` returns, whatever `next` is (so without calling it), no error and
an answer whose Answer section is exactly one A record with the name of the
query, class INET and the address `pool.Lookup` gives for the bare hostname;
every record of the answer, authority and additional sections has TTL 1; the
answer has rcode Success, is authoritative and recursion-available, and the
context is tagged FakeIP. The pool is asked once, for the bare hostname. -/
theorem withFakeIP_A_query (dnsDefaultTTL : Nat) (fakePool : Pool) (r : Msg) (w : World)
    (q : Question) (qs : List Question)
    (hq : r.Question = q :: qs) (hA : q.Qtype = TypeA)
    (hskip : fakePool.ShouldSkipped (TrimRight q.Name ".") = false) :
    ∃ m : Msg,
      (∀ next : handler,
        withFakeIP dnsDefaultTTL fakePool next r w
          = Outcome.ret (some m) none
              ({ w with lookups := w.lookups ++ [TrimRight q.Name "."] }.SetType DNSType.FakeIP))
      ∧ m.Answer = [RR.A { Name := q.Name, Rrtype := TypeA, Class := ClassINET, Ttl := 1 }
                      (fakePool.Lookup w.lookups (TrimRight q.Name "."))]
      ∧ (∀ rr ∈ m.Answer ++ m.Ns ++ m.Extra, rr.Header.Ttl = 1)
      ∧ m.Rcode = RcodeSuccess ∧ m.Authoritative = true ∧ m.RecursionAvailable = true
      ∧ ({ w with lookups := w.lookups ++ [TrimRight q.Name "."] }.SetType DNSType.FakeIP).tag
          = some DNSType.FakeIP := by
  have h1 : ¬ (q.Qtype = TypeAAAA ∨ q.Qtype = TypeSVCB ∨ q.Qtype = TypeHTTPS) := by
    rw [hA]; decide
  have hsec := SetRcode_sections
    (setMsgTTL { r.Copy with Answer := [RR.A
        { Name := q.Name, Rrtype := TypeA, Class := ClassINET, Ttl := dnsDefaultTTL }
        (fakePool.Lookup w.lookups (TrimRight q.Name "."))] } 1) r RcodeSuccess
  refine ⟨{ Msg.SetRcode
              (setMsgTTL { r.Copy with Answer := [RR.A
        { Name := q.Name, Rrtype := TypeA, Class := ClassINET, Ttl := dnsDefaultTTL }
        (fakePool.Lookup w.lookups (TrimRight q.Name "."))] } 1) r RcodeSuccess
              with Authoritative := true, RecursionAvailable := true }, ?_, ?_, ?_, hsec.2.2.2,
          rfl, rfl, tag_SetType _ _⟩
  · intro next
    simp only [withFakeIP, hq, hskip, h1, Bool.false_eq_true, if_false]
    rw [if_neg (fun h => h hA)]
  · show (Msg.SetRcode _ r RcodeSuccess).Answer = _
    rw [hsec.1]
    rfl
  · intro rr hrr
    have hrr2 : rr ∈ (Msg.SetRcode
        (setMsgTTL { r.Copy with Answer := [RR.A
        { Name := q.Name, Rrtype := TypeA, Class := ClassINET, Ttl := dnsDefaultTTL }
        (fakePool.Lookup w.lookups (TrimRight q.Name "."))] } 1) r RcodeSuccess).Answer
        ++ (Msg.SetRcode
        (setMsgTTL { r.Copy with Answer := [RR.A
        { Name := q.Name, Rrtype := TypeA, Class := ClassINET, Ttl := dnsDefaultTTL }
        (fakePool.Lookup w.lookups (TrimRight q.Name "."))] } 1) r RcodeSuccess).Ns
        ++ (Msg.SetRcode
        (setMsgTTL { r.Copy with Answer := [RR.A
        { Name := q.Name, Rrtype := TypeA, Class := ClassINET, Ttl := dnsDefaultTTL }
        (fakePool.Lookup w.lookups (TrimRight q.Name "."))] } 1) r RcodeSuccess).Extra := hrr
    rw [hsec.1, hsec.2.1, hsec.2.2.1] at hrr2
    simp only [setMsgTTL, List.mem_append, List.mem_map] at hrr2
    rcases hrr2 with (⟨x, _, rfl⟩ | ⟨x, _, rfl⟩) | ⟨x, _, rfl⟩ <;> exact setTtl_Header_Ttl 1 x

theorem withFakeIP_A_query_witness :
    (sampleRequest "example.com." TypeA).Question
        = [{ Name := "example.com.", Qtype := TypeA, Qclass := ClassINET }]
      ∧ samplePool.ShouldSkipped (TrimRight "example.com." ".") = false
      ∧ ∃ m : Msg,
        (∀ next : handler,
          withFakeIP 600 samplePool next (sampleRequest "example.com." TypeA) sampleWorld
            = Outcome.ret (some m) none
                { tags := [DNSType.FakeIP], mapping := [], lookups := ["example.com"],
                  exchanges := [], nowReads := 0 })
        ∧ m.Answer = [RR.A { Name := "example.com.", Rrtype := TypeA, Class := ClassINET, Ttl := 1 }
                        [198, 18, 0, 11]] := by
  refine ⟨rfl, by decide, ?_⟩
  obtain ⟨m, h1, h2, _⟩ :=
    withFakeIP_A_query 600 samplePool (sampleRequest "example.com." TypeA) sampleWorld
      { Name := "example.com.", Qtype := TypeA, Qclass := ClassINET } [] rfl rfl (by decide)
  refine ⟨m, ?_, ?_⟩
  · intro next
    exact (h1 next).trans (congrArg (Outcome.ret (some m) none) (by decide))
  · rw [h2]
    decide

/-- C5: for a query of type AAAA, SVCB or HTTPS whose bare hostname the pool
does not exempt, `withFakeIP` returns, whatever `next` is (so without calling
it), no error and the successful empty answer: no record in any section, rcode
Success; the surroundings are left as they were, so `pool.Lookup` is not
called and no request is exchanged upstream. -/
theorem withFakeIP_AAAA_SVCB_HTTPS (dnsDefaultTTL : Nat) (fakePool : Pool) (r : Msg) (w : World)
    (q : Question) (qs : List Question)
    (hq : r.Question = q :: qs)
    (ht : q.Qtype = TypeAAAA ∨ q.Qtype = TypeSVCB ∨ q.Qtype = TypeHTTPS)
    (hskip : fakePool.ShouldSkipped (TrimRight q.Name ".") = false) :
    (∀ next : handler,
      withFakeIP dnsDefaultTTL fakePool next r w
        = Outcome.ret (some (handleMsgWithEmptyAnswer r)) none w)
      ∧ (handleMsgWithEmptyAnswer r).Answer = []
      ∧ (handleMsgWithEmptyAnswer r).Ns = []
      ∧ (handleMsgWithEmptyAnswer r).Extra = []
      ∧ (handleMsgWithEmptyAnswer r).Rcode = RcodeSuccess
      ∧ (∀ next : handler,
          (withFakeIP dnsDefaultTTL fakePool next r w).world.lookups = w.lookups
            ∧ (withFakeIP dnsDefaultTTL fakePool next r w).world.exchanges = w.exchanges) := by
  obtain ⟨ha, hn, he, hr, _, _⟩ := handleMsgWithEmptyAnswer_shape r
  have hmain : ∀ next : handler,
      withFakeIP dnsDefaultTTL fakePool next r w
        = Outcome.ret (some (handleMsgWithEmptyAnswer r)) none w := by
    intro next
    simp only [withFakeIP, hq, hskip, ht, Bool.false_eq_true, if_false, if_true]
  refine ⟨hmain, ha, hn, he, hr, ?_⟩
  intro next
  rw [hmain next]
  exact ⟨rfl, rfl⟩

theorem withFakeIP_AAAA_SVCB_HTTPS_witness :
    (sampleRequest "example.com." TypeHTTPS).Question
        = [{ Name := "example.com.", Qtype := TypeHTTPS, Qclass := ClassINET }]
      ∧ samplePool.ShouldSkipped (TrimRight "example.com." ".") = false
      ∧ ∀ next : handler,
        withFakeIP 600 samplePool next (sampleRequest "example.com." TypeHTTPS) sampleWorld
          = Outcome.ret (some (handleMsgWithEmptyAnswer (sampleRequest "example.com." TypeHTTPS)))
              none sampleWorld :=
  ⟨rfl, by decide,
    (withFakeIP_AAAA_SVCB_HTTPS 600 samplePool (sampleRequest "example.com." TypeHTTPS)
      sampleWorld { Name := "example.com.", Qtype := TypeHTTPS, Qclass := ClassINET } [] rfl
      (Or.inr (Or.inr rfl)) (by decide)).1⟩

/-- C6: when the pool exempts the bare hostname (whatever the query type), or
when it does not and the query type is none of A, AAAA, SVCB, HTTPS,
`withFakeIP` is `next` on the same request and surroundings: the same answer
and error, and nothing but what `next` does to the pool, the context tag or
anything else. -/
theorem withFakeIP_delegates (dnsDefaultTTL : Nat) (fakePool : Pool) (next : handler)
    (r : Msg) (w : World) (q : Question) (qs : List Question)
    (hq : r.Question = q :: qs)
    (h : fakePool.ShouldSkipped (TrimRight q.Name ".") = true
      ∨ (fakePool.ShouldSkipped (TrimRight q.Name ".") = false
          ∧ q.Qtype ≠ TypeA ∧ q.Qtype ≠ TypeAAAA ∧ q.Qtype ≠ TypeSVCB ∧ q.Qtype ≠ TypeHTTPS)) :
    withFakeIP dnsDefaultTTL fakePool next r w = next r w := by
  rcases h with hskip | ⟨hskip, hA, h4, hS, hH⟩
  · simp only [withFakeIP, hq, hskip, if_true]
  · have h1 : ¬ (q.Qtype = TypeAAAA ∨ q.Qtype = TypeSVCB ∨ q.Qtype = TypeHTTPS) := by
      rintro (h | h | h)
      · exact h4 h
      · exact hS h
      · exact hH h
    simp only [withFakeIP, hq, hskip, h1, Bool.false_eq_true, if_false, ne_eq, hA,
      not_false_eq_true, if_true]

theorem withFakeIP_delegates_witness :
    (sampleRequest "skip.example." TypeA).Question
        = [{ Name := "skip.example.", Qtype := TypeA, Qclass := ClassINET }]
      ∧ samplePool.ShouldSkipped (TrimRight "skip.example." ".") = true
      ∧ withFakeIP 600 samplePool sampleFailing (sampleRequest "skip.example." TypeA) sampleWorld
          = Outcome.ret none (some "upstream unreachable") sampleWorld :=
  ⟨rfl, by decide,
    withFakeIP_delegates 600 samplePool sampleFailing (sampleRequest "skip.example." TypeA)
      sampleWorld { Name := "skip.example.", Qtype := TypeA, Qclass := ClassINET } [] rfl
      (Or.inl (by decide))⟩

/-! ### `withMapping` -/

theorem mappingLoop_spec (lib : GoLib) (host : String) (l : List RR) :
    ∀ w : World,
      (mappingLoop lib host l w).mapping = w.mapping ++ expectedEntries lib host w.nowReads l
        ∧ (mappingLoop lib host l w).tags = w.tags
        ∧ (mappingLoop lib host l w).lookups = w.lookups
        ∧ (mappingLoop lib host l w).exchanges = w.exchanges
        ∧ (mappingLoop lib host l w).nowReads
            = w.nowReads + (expectedEntries lib host w.nowReads l).length := by
  induction l with
  | nil => intro w; simp [mappingLoop, expectedEntries]
  | cons rr rest ih =>
    intro w
    cases rr with
    | A hdr a =>
      obtain ⟨h1, h2, h3, h4, h5⟩ := ih
        ({ w with nowReads := w.nowReads + 1 }.SetWithExpire (lib.IPString a) host
          (lib.Now w.nowReads + Second * hdr.Ttl))
      simp only [mappingLoop, expectedEntries, addressOf, h1, h2, h3, h4, h5]
      simp [World.SetWithExpire]
      omega
    | AAAA hdr a =>
      obtain ⟨h1, h2, h3, h4, h5⟩ := ih
        ({ w with nowReads := w.nowReads + 1 }.SetWithExpire (lib.IPString a) host
          (lib.Now w.nowReads + Second * hdr.Ttl))
      simp only [mappingLoop, expectedEntries, addressOf, h1, h2, h3, h4, h5]
      simp [World.SetWithExpire]
      omega
    | PTR hdr p => simpa only [mappingLoop, expectedEntries, addressOf] using ih w
    | other hdr d => simpa only [mappingLoop, expectedEntries, addressOf] using ih w

theorem expectedEntries_mem (lib : GoLib) (host : String) (l : List RR) :
    ∀ (k : Nat) (rr : RR) (ip : IP) (t : Nat), rr ∈ l → addressOf rr = some (ip, t) →
      ∃ j, k ≤ j ∧
        ({ key := lib.IPString ip, value := host, expire := lib.Now j + Second * t } : MappingEntry)
          ∈ expectedEntries lib host k l := by
  induction l with
  | nil => intro k rr ip t h; exact absurd h (List.not_mem_nil _)
  | cons x rest ih =>
    intro k rr ip t hmem haddr
    rcases List.mem_cons.mp hmem with rfl | hrest
    · exact ⟨k, Nat.le_refl k, by simp [expectedEntries, haddr]⟩
    · cases hx : addressOf x with
      | none =>
        obtain ⟨j, hj, hin⟩ := ih k rr ip t hrest haddr
        exact ⟨j, hj, by simpa [expectedEntries, hx] using hin⟩
      | some p =>
        obtain ⟨j, hj, hin⟩ := ih (k + 1) rr ip t hrest haddr
        exact ⟨j, by omega, by simp [expectedEntries, hx, hin]⟩

theorem expectedEntries_length (lib : GoLib) (host : String) (l : List RR) :
    ∀ k : Nat, (expectedEntries lib host k l).length = (l.filterMap addressOf).length := by
  induction l with
  | nil => intro k; rfl
  | cons x rest ih =>
    intro k
    cases hx : addressOf x with
    | none => simp [expectedEntries, hx, List.filterMap_cons, ih]
    | some p => simp [expectedEntries, hx, List.filterMap_cons, ih]

/-- C7, as the claim states it, fails for a query that is not an address
query: the stage hands a query of type ANY to `next` and returns its answer
without looking at it, so the A and AAAA records of that answer are not
written to the mapping cache. -/
theorem withMapping_non_IP_writes_nothing :
    let r : Msg := sampleRequest "example.com." 255
    sampleAnswering r sampleWorld = Outcome.ret (some (sampleAnswer r)) none sampleWorld
      ∧ RR.A { Name := "example.com.", Rrtype := TypeA, Class := ClassINET, Ttl := 300 }
          [93, 184, 216, 34] ∈ (sampleAnswer r).Answer
      ∧ withMapping sampleLib sampleAnswering r sampleWorld
          = Outcome.ret (some (sampleAnswer r)) none sampleWorld
      ∧ (withMapping sampleLib sampleAnswering r sampleWorld).world.mapping = [] := by
  refine ⟨rfl, by decide, by decide, by decide⟩

/-- C7, amended: for a query of type A or AAAA (one that passes the guard
`isIPRequest` of the stage) on which `next` succeeds with answer `M`,
`withMapping` appends to the mapping cache, for each A or AAAA record of the
Answer section of `M` in order and for no other record, one entry with key the
textual form of the address of the record, value the bare hostname of the
query, and expiry the reading of the clock taken for that record plus the TTL
of the record in seconds; nothing else of the surroundings changes but the
count of clock readings. -/
theorem withMapping_records (lib : GoLib) (next : handler) (r : Msg) (w w1 : World)
    (q : Question) (qs : List Question) (M : Msg)
    (hq : r.Question = q :: qs) (hip : isIPRequest q = true)
    (hnext : next r w = Outcome.ret (some M) none w1) :
    ∃ w2 : World,
      withMapping lib next r w = Outcome.ret (some M) none w2
      ∧ w2.mapping = w1.mapping ++ expectedEntries lib (TrimRight q.Name ".") w1.nowReads M.Answer
      ∧ (∀ (rr : RR) (ip : IP) (t : Nat), rr ∈ M.Answer → addressOf rr = some (ip, t) →
          ∃ j, w1.nowReads ≤ j ∧
            ({ key := lib.IPString ip, value := TrimRight q.Name ".",
               expire := lib.Now j + Second * t } : MappingEntry) ∈ w2.mapping)
      ∧ w2.mapping.length = w1.mapping.length + (M.Answer.filterMap addressOf).length
      ∧ w2.tags = w1.tags ∧ w2.lookups = w1.lookups ∧ w2.exchanges = w1.exchanges := by
  obtain ⟨h1, h2, h3, h4, _⟩ := mappingLoop_spec lib (TrimRight q.Name ".") M.Answer w1
  refine ⟨mappingLoop lib (TrimRight q.Name ".") M.Answer w1, ?_, h1, ?_, ?_, h2, h3, h4⟩
  · simp only [withMapping, hq, hip, hnext, Bool.not_true, Bool.false_eq_true, if_false]
  · intro rr ip t hmem haddr
    obtain ⟨j, hj, hin⟩ :=
      expectedEntries_mem lib (TrimRight q.Name ".") M.Answer w1.nowReads rr ip t hmem haddr
    exact ⟨j, hj, by rw [h1]; exact List.mem_append_right _ hin⟩
  · rw [h1, List.length_append, expectedEntries_length]

theorem withMapping_records_witness :
    (sampleRequest "example.com." TypeA).Question
        = [{ Name := "example.com.", Qtype := TypeA, Qclass := ClassINET }]
      ∧ ∃ w2 : World,
        withMapping sampleLib sampleAnswering (sampleRequest "example.com." TypeA) sampleWorld
          = Outcome.ret (some (sampleAnswer (sampleRequest "example.com." TypeA))) none w2
        ∧ w2.mapping
          = [{ key := "93.184.216.34", value := "example.com",
               expire := 1700000000 * Second + 0 + Second * 300 },
             { key := "32.1.13.184.0.0.0.0.0.0.0.0.0.0.0.1", value := "example.com",
               expire := 1700000000 * Second + 1 + Second * 20 }] := by
  refine ⟨rfl, ?_⟩
  obtain ⟨w2, h1, h2, _⟩ :=
    withMapping_records sampleLib sampleAnswering (sampleRequest "example.com." TypeA)
      sampleWorld sampleWorld { Name := "example.com.", Qtype := TypeA, Qclass := ClassINET } []
      (sampleAnswer (sampleRequest "example.com." TypeA)) rfl (by decide) rfl
  refine ⟨w2, h1, ?_⟩
  rw [h2]
  decide

/-- C8: when `next` fails with error `e`, `withMapping` returns the same error
`e` and leaves the surroundings exactly as `next` left them: the stage itself
writes nothing to the mapping cache, which therefore holds after the call what
it held before whenever `next` did not write to it. -/
theorem withMapping_error (lib : GoLib) (next : handler) (r : Msg) (w w1 : World)
    (q : Question) (qs : List Question) (m : Option Msg) (e : Error)
    (hq : r.Question = q :: qs)
    (hnext : next r w = Outcome.ret m (some e) w1) :
    (∃ m1 : Option Msg, withMapping lib next r w = Outcome.ret m1 (some e) w1)
      ∧ (withMapping lib next r w).world = w1
      ∧ (w1.mapping = w.mapping → (withMapping lib next r w).world.mapping = w.mapping) := by
  have hmain : ∃ m1 : Option Msg, withMapping lib next r w = Outcome.ret m1 (some e) w1 := by
    cases hip : isIPRequest q with
    | false =>
      exact ⟨m, by simp only [withMapping, hq, hip, hnext, Bool.not_false, if_true]⟩
    | true =>
      exact ⟨none, by
        simp only [withMapping, hq, hip, hnext, Bool.not_true, Bool.false_eq_true, if_false]⟩
  obtain ⟨m1, hm1⟩ := hmain
  refine ⟨⟨m1, hm1⟩, ?_, ?_⟩
  · rw [hm1]; rfl
  · intro h
    rw [hm1]
    exact h

theorem withMapping_error_witness :
    (sampleRequest "example.com." TypeA).Question
        = [{ Name := "example.com.", Qtype := TypeA, Qclass := ClassINET }]
      ∧ sampleFailing (sampleRequest "example.com." TypeA) sampleWorld
          = Outcome.ret none (some "upstream unreachable") sampleWorld
      ∧ (withMapping sampleLib sampleFailing (sampleRequest "example.com." TypeA)
          sampleWorld).world = sampleWorld :=
  ⟨rfl, rfl,
    (withMapping_error sampleLib sampleFailing (sampleRequest "example.com." TypeA) sampleWorld
      sampleWorld { Name := "example.com.", Qtype := TypeA, Qclass := ClassINET } [] none
      "upstream unreachable" rfl rfl).2.1⟩

/-- C9: when `next` succeeds with answer `M`, `withMapping` returns `M` itself
and no error, for address queries and all other queries alike: the same rcode,
flags and records in every section. -/
theorem withMapping_returns_answer (lib : GoLib) (next : handler) (r : Msg) (w w1 : World)
    (q : Question) (qs : List Question) (M : Msg)
    (hq : r.Question = q :: qs)
    (hnext : next r w = Outcome.ret (some M) none w1) :
    ∃ w2 : World, withMapping lib next r w = Outcome.ret (some M) none w2 := by
  cases hip : isIPRequest q with
  | false =>
    exact ⟨w1, by simp only [withMapping, hq, hip, hnext, Bool.not_false, if_true]⟩
  | true =>
    exact ⟨mappingLoop lib (TrimRight q.Name ".") M.Answer w1, by
      simp only [withMapping, hq, hip, hnext, Bool.not_true, Bool.false_eq_true, if_false]⟩

theorem withMapping_returns_answer_witness :
    (sampleRequest "example.com." TypeAAAA).Question
        = [{ Name := "example.com.", Qtype := TypeAAAA, Qclass := ClassINET }]
      ∧ ∃ w2 : World,
        withMapping sampleLib sampleAnswering (sampleRequest "example.com." TypeAAAA) sampleWorld
          = Outcome.ret (some (sampleAnswer (sampleRequest "example.com." TypeAAAA))) none w2 :=
  ⟨rfl,
    withMapping_returns_answer sampleLib sampleAnswering (sampleRequest "example.com." TypeAAAA)
      sampleWorld sampleWorld { Name := "example.com.", Qtype := TypeAAAA, Qclass := ClassINET }
      [] (sampleAnswer (sampleRequest "example.com." TypeAAAA)) rfl rfl⟩

/-! ### `withResolver` -/

/-- C10: for an AAAA query with the `ipv6` flag of the resolver false,
`withResolver` returns no error and the successful empty answer (no record in
any section, rcode Success) whatever `Exchange` is, and no request is given to
`Exchange`; and for every request, with or without a question and however the
call ends, the only tag set on the context is Raw, set before anything else
of the request is read. -/
theorem withResolver_AAAA_ipv6_disabled (resolver : Resolver) (r : Msg) (w : World) :
    (∀ (q : Question) (qs : List Question),
        r.Question = q :: qs → q.Qtype = TypeAAAA → resolver.ipv6 = false →
          withResolver resolver r w
              = Outcome.ret (some (handleMsgWithEmptyAnswer r)) none (w.SetType DNSType.Raw)
            ∧ (handleMsgWithEmptyAnswer r).Answer = []
            ∧ (handleMsgWithEmptyAnswer r).Ns = []
            ∧ (handleMsgWithEmptyAnswer r).Extra = []
            ∧ (handleMsgWithEmptyAnswer r).Rcode = RcodeSuccess
            ∧ (withResolver resolver r w).world.exchanges = w.exchanges)
      ∧ (withResolver resolver r w).world.tags = w.tags ++ [DNSType.Raw]
      ∧ (withResolver resolver r w).world.tag = some DNSType.Raw := by
  have htags : (withResolver resolver r w).world.tags = w.tags ++ [DNSType.Raw] := by
    unfold withResolver
    cases hQ : r.Question with
    | nil => rfl
    | cons q qs =>
      simp only
      split
      · rfl
      · rcases hex : resolver.Exchange (w.SetType DNSType.Raw).exchanges r with ⟨_ | m, _ | e⟩ <;> rfl
  refine ⟨?_, htags, ?_⟩
  · intro q qs hq hA hv6
    obtain ⟨ha, hn, he, hr, _, _⟩ := handleMsgWithEmptyAnswer_shape r
    have hmain : withResolver resolver r w
        = Outcome.ret (some (handleMsgWithEmptyAnswer r)) none (w.SetType DNSType.Raw) := by
      simp [withResolver, hq, hA, hv6]
    refine ⟨hmain, ha, hn, he, hr, ?_⟩
    rw [hmain]
    rfl
  · unfold World.tag
    rw [htags]
    simp

theorem withResolver_AAAA_ipv6_disabled_witness :
    (sampleRequest "example.com." TypeAAAA).Question
        = [{ Name := "example.com.", Qtype := TypeAAAA, Qclass := ClassINET }]
      ∧ sampleResolver.ipv6 = false
      ∧ withResolver sampleResolver (sampleRequest "example.com." TypeAAAA) sampleWorld
          = Outcome.ret (some (handleMsgWithEmptyAnswer (sampleRequest "example.com." TypeAAAA)))
              none (sampleWorld.SetType DNSType.Raw) :=
  ⟨rfl, rfl,
    ((withResolver_AAAA_ipv6_disabled sampleResolver (sampleRequest "example.com." TypeAAAA)
      sampleWorld).1 { Name := "example.com.", Qtype := TypeAAAA, Qclass := ClassINET } []
      rfl rfl rfl).1⟩

/-! ### `newHandler` -/

theorem compose_foldr (ms : List middleware) (e : handler) :
    compose ms e = ms.foldr (fun m h => m h) e := by
  unfold compose
  rw [composeLoop_take ms ms.length e (Nat.le_refl _), List.take_length]

theorem newHandler_stages (lib : GoLib) (ttl : Nat) (resolver : Resolver)
    (mapper : ResolverEnhancer) :
    newHandler lib ttl resolver mapper
      = compose (expectedStages lib ttl resolver mapper) (withResolver resolver) := by
  unfold newHandler expectedStages expectedHostsStages
  cases resolver.localHosts <;> cases resolver.hosts <;>
    by_cases hF : mapper.mode = DNSMode.DNSFakeIP <;>
    by_cases hN : mapper.mode = DNSMode.DNSNormal <;>
    simp [hF, hN]

/-- The pipeline, stage by stage: the local hosts stage when present, over
the secondary hosts stage when present, over `afterHosts`. -/
theorem newHandler_unfold (lib : GoLib) (ttl : Nat) (resolver : Resolver)
    (mapper : ResolverEnhancer) :
    newHandler lib ttl resolver mapper
      = (match resolver.localHosts with
          | some t => withHosts t
          | none => fun h => h)
          ((match resolver.hosts with
            | some t => withHosts t
            | none => fun h => h)
            (afterHosts lib ttl resolver mapper)) := by
  rw [newHandler_stages, compose_foldr]
  unfold expectedStages expectedHostsStages afterHosts
  cases resolver.localHosts <;> cases resolver.hosts <;>
    by_cases hF : mapper.mode = DNSMode.DNSFakeIP <;>
    by_cases hN : mapper.mode = DNSMode.DNSNormal <;>
    simp [hF, hN]

/-- C13: `newHandler` is `compose` of the stages the specification lists, in
its order and under its conditions, over `withResolver`. In Normal mode
neither the fake-address nor the mapping stage is installed; in FakeIP mode
both are, fake-address first; in any other mode only the mapping stage is; and
with no hosts table in Normal mode the pipeline is `withResolver` itself. -/
theorem newHandler_eq_compose (lib : GoLib) (ttl : Nat) (resolver : Resolver)
    (mapper : ResolverEnhancer) :
    newHandler lib ttl resolver mapper
        = compose (expectedStages lib ttl resolver mapper) (withResolver resolver)
      ∧ (mapper.mode = DNSMode.DNSNormal →
          expectedStages lib ttl resolver mapper = expectedHostsStages resolver)
      ∧ (mapper.mode = DNSMode.DNSFakeIP →
          expectedStages lib ttl resolver mapper
            = expectedHostsStages resolver ++ [withFakeIP ttl mapper.fakePool, withMapping lib])
      ∧ (mapper.mode ≠ DNSMode.DNSNormal → mapper.mode ≠ DNSMode.DNSFakeIP →
          expectedStages lib ttl resolver mapper = expectedHostsStages resolver ++ [withMapping lib])
      ∧ (resolver.localHosts = none → resolver.hosts = none →
          mapper.mode = DNSMode.DNSNormal →
          newHandler lib ttl resolver mapper = withResolver resolver) := by
  refine ⟨newHandler_stages lib ttl resolver mapper, ?_, ?_, ?_, ?_⟩
  · intro hN
    simp [expectedStages, hN]
  · intro hF
    simp [expectedStages, hF]
  · intro hN hF
    simp [expectedStages, hN, hF]
  · intro hl hh hN
    rw [newHandler_unfold]
    simp [hl, hh, afterHosts, hN]

theorem newHandler_eq_compose_witness :
    sampleResolver.localHosts = none ∧ sampleResolver.hosts = none
      ∧ (sampleEnhancer DNSMode.DNSNormal).mode = DNSMode.DNSNormal
      ∧ newHandler sampleLib 600 sampleResolver (sampleEnhancer DNSMode.DNSNormal)
          = withResolver sampleResolver :=
  ⟨rfl, rfl, rfl,
    (newHandler_eq_compose sampleLib 600 sampleResolver
      (sampleEnhancer DNSMode.DNSNormal)).2.2.2.2 rfl rfl rfl⟩

/-- C16: for a query that the IPv6-disabled rule does not short-circuit, when
`Exchange` succeeds with answer `M`, `withResolver` returns no error and an
answer with the response code of `M`, authoritative, and with the Answer
records of `M` unchanged; when `Exchange` fails with error `e`, it returns
`e` (with whatever message `Exchange` gave). -/
theorem withResolver_exchange (resolver : Resolver) (r : Msg) (w : World)
    (q : Question) (qs : List Question)
    (hq : r.Question = q :: qs)
    (hlong : ¬ (resolver.ipv6 = false ∧ q.Qtype = TypeAAAA)) :
    (∀ M : Msg, resolver.Exchange w.exchanges r = (some M, none) →
        ∃ m : Msg,
          withResolver resolver r w
              = Outcome.ret (some m) none
                  { w.SetType DNSType.Raw with exchanges := w.exchanges ++ [r] }
            ∧ m.Rcode = M.Rcode ∧ m.Authoritative = true ∧ m.Answer = M.Answer)
      ∧ (∀ (M : Option Msg) (e : Error), resolver.Exchange w.exchanges r = (M, some e) →
          withResolver resolver r w
            = Outcome.ret M (some e)
                { w.SetType DNSType.Raw with exchanges := w.exchanges ++ [r] }) := by
  have hcond : (!resolver.ipv6 && q.Qtype == TypeAAAA) = false := by
    cases h6 : resolver.ipv6 with
    | true => simp
    | false =>
      have : q.Qtype ≠ TypeAAAA := fun h => hlong ⟨h6, h⟩
      simp [this]
  constructor
  · intro M hM
    have hsec := SetRcode_sections M r M.Rcode
    refine ⟨{ M.SetRcode r M.Rcode with Authoritative := true }, ?_, hsec.2.2.2, rfl, hsec.1⟩
    have hM2 : resolver.Exchange (w.SetType DNSType.Raw).exchanges r = (some M, none) := hM
    simp only [withResolver, hq, hcond, hM2, Bool.false_eq_true, if_false]
    rfl
  · intro M e hM
    have hM2 : resolver.Exchange (w.SetType DNSType.Raw).exchanges r = (M, some e) := hM
    simp only [withResolver, hq, hcond, hM2, Bool.false_eq_true, if_false]
    rfl

theorem withResolver_exchange_witness :
    (sampleRequest "example.com." TypeA).Question
        = [{ Name := "example.com.", Qtype := TypeA, Qclass := ClassINET }]
      ∧ sampleResolver.Exchange sampleWorld.exchanges (sampleRequest "example.com." TypeA)
          = (some (sampleAnswer (sampleRequest "example.com." TypeA)), none)
      ∧ ∃ m : Msg,
        withResolver sampleResolver (sampleRequest "example.com." TypeA) sampleWorld
            = Outcome.ret (some m) none
                { sampleWorld.SetType DNSType.Raw with
                    exchanges := sampleWorld.exchanges ++ [sampleRequest "example.com." TypeA] }
          ∧ m.Rcode = (sampleAnswer (sampleRequest "example.com." TypeA)).Rcode
          ∧ m.Authoritative = true
          ∧ m.Answer = (sampleAnswer (sampleRequest "example.com." TypeA)).Answer :=
  ⟨rfl, rfl,
    (withResolver_exchange sampleResolver (sampleRequest "example.com." TypeA) sampleWorld
      { Name := "example.com.", Qtype := TypeA, Qclass := ClassINET } [] rfl
      (by decide)).1 (sampleAnswer (sampleRequest "example.com." TypeA)) rfl⟩

/-! ### Stage by stage: delegate, or answer alone -/

theorem hostsReply_sections (r : Msg) (answer : List RR) :
    (hostsReply r answer).Answer = answer ∧ (hostsReply r answer).Rcode = RcodeSuccess
      ∧ (hostsReply r answer).Authoritative = true
      ∧ (hostsReply r answer).RecursionAvailable = true := by
  have h := SetRcode_sections { r.Copy with Answer := answer } r RcodeSuccess
  exact ⟨h.1, h.2.2.2, rfl, rfl⟩

theorem withHosts_cases (hosts : DomainTrie) (r : Msg) (w : World) :
    (∀ next : handler, withHosts hosts next r w = next r w)
      ∨ ∃ o : Outcome, (∀ next : handler, withHosts hosts next r w = o) ∧ HostsOwn r w o := by
  cases hQ : r.Question with
  | nil =>
    exact Or.inr ⟨Outcome.panic w, fun next => by simp only [withHosts, hQ], Or.inl ⟨hQ, rfl⟩⟩
  | cons q qs =>
    cases hg : isIPorPTRRequest q with
    | false =>
      exact Or.inl (fun next => by simp only [withHosts, hQ, hg, Bool.not_false, if_true])
    | true =>
      cases hs : hosts.Search (ToLower (TrimRight q.Name ".")) with
      | none =>
        exact Or.inl (fun next => by
          simp only [withHosts, hQ, hg, hs, Bool.not_true, Bool.false_eq_true, if_false])
      | some data =>
        have hfinish : ∀ answer : List RR,
            (∀ next : handler,
              (if ({ r.Copy with Answer := answer } : Msg).Answer.length > 0 then
                  Outcome.ret (some (hostsReply r answer)) none (w.SetType DNSType.Host)
                else next r w) = next r w)
            ∨ ∃ o : Outcome,
              (∀ next : handler,
                (if ({ r.Copy with Answer := answer } : Msg).Answer.length > 0 then
                    Outcome.ret (some (hostsReply r answer)) none (w.SetType DNSType.Host)
                  else next r w) = o) ∧ HostsOwn r w o := by
          intro answer
          by_cases hlen : answer.length > 0
          · refine Or.inr ⟨Outcome.ret (some (hostsReply r answer)) none (w.SetType DNSType.Host),
              fun next => if_pos hlen, Or.inr (Or.inr ⟨answer, ?_, rfl⟩)⟩
            exact List.length_pos.mp hlen
          · exact Or.inl (fun next => if_neg hlen)
        cases data with
        | ips l =>
          rcases hfinish (l.foldl (hostsAppendIP q) r.Answer) with h | ⟨o, h, ho⟩
          · exact Or.inl (fun next => by
              simp only [withHosts, hQ, hg, hs, Bool.not_true, Bool.false_eq_true, if_false]
              exact h next)
          · exact Or.inr ⟨o, fun next => by
              simp only [withHosts, hQ, hg, hs, Bool.not_true, Bool.false_eq_true, if_false]
              exact h next, ho⟩
        | ptrs l =>
          cases hp : hostsPtrLoop q l r.Copy.Answer with
          | none =>
            exact Or.inr ⟨Outcome.ret (some (handleMsgWithEmptyAnswer r)) none w, fun next => by
              simp only [withHosts, hQ, hg, hs, hp, Bool.not_true, Bool.false_eq_true,
                if_false, Option.map_none'], Or.inr (Or.inl rfl)⟩
          | some a =>
            rcases hfinish a with h | ⟨o, h, ho⟩
            · exact Or.inl (fun next => by
                simp only [withHosts, hQ, hg, hs, hp, Bool.not_true, Bool.false_eq_true,
                  if_false, Option.map_some']
                exact h next)
            · exact Or.inr ⟨o, fun next => by
                simp only [withHosts, hQ, hg, hs, hp, Bool.not_true,
                  Bool.false_eq_true, if_false, Option.map_some']
                exact h next, ho⟩
        | other =>
          rcases hfinish r.Answer with h | ⟨o, h, ho⟩
          · exact Or.inl (fun next => by
              simp only [withHosts, hQ, hg, hs, Bool.not_true, Bool.false_eq_true, if_false]
              exact h next)
          · exact Or.inr ⟨o, fun next => by
              simp only [withHosts, hQ, hg, hs, Bool.not_true, Bool.false_eq_true, if_false]
              exact h next, ho⟩

theorem withFakeIP_cases (ttl : Nat) (pool : Pool) (r : Msg) (w : World) :
    (∀ next : handler, withFakeIP ttl pool next r w = next r w)
      ∨ ∃ o : Outcome, (∀ next : handler, withFakeIP ttl pool next r w = o) ∧ FakeOwn r w o := by
  cases hQ : r.Question with
  | nil =>
    exact Or.inr ⟨Outcome.panic w, fun next => by simp only [withFakeIP, hQ], Or.inl ⟨hQ, rfl⟩⟩
  | cons q qs =>
    cases hskip : pool.ShouldSkipped (TrimRight q.Name ".") with
    | true => exact Or.inl (fun next => by simp only [withFakeIP, hQ, hskip, if_true])
    | false =>
      by_cases h1 : q.Qtype = TypeAAAA ∨ q.Qtype = TypeSVCB ∨ q.Qtype = TypeHTTPS
      · exact Or.inr ⟨Outcome.ret (some (handleMsgWithEmptyAnswer r)) none w, fun next => by
          simp only [withFakeIP, hQ, hskip, h1, Bool.false_eq_true, if_false, if_true],
          Or.inr (Or.inl rfl)⟩
      · by_cases hA : q.Qtype = TypeA
        · refine Or.inr ⟨Outcome.ret
              (some (fakeReply ttl (pool.Lookup w.lookups (TrimRight q.Name ".")) r q)) none
              ({ w with lookups := w.lookups ++ [TrimRight q.Name "."] }.SetType DNSType.FakeIP),
            fun next => ?_, Or.inr (Or.inr ⟨_, q, qs, hQ, hA, rfl⟩)⟩
          simp only [withFakeIP, hQ, hskip, h1, Bool.false_eq_true, if_false]
          rw [if_neg (fun h => h hA)]
          rfl
        · exact Or.inl (fun next => by
            simp only [withFakeIP, hQ, hskip, h1, Bool.false_eq_true, if_false, ne_eq, hA,
              not_false_eq_true, if_true])

/-- A stage cannot both delegate and give one outcome whatever `next` is. -/
theorem delegates_not_answers (m : middleware) (r : Msg) (w : World) (o : Outcome)
    (hd : ∀ next : handler, m next r w = next r w)
    (ha : ∀ next : handler, m next r w = o) : False := by
  have h1 := (hd (fun _ _ => Outcome.panic w)).symm.trans (ha _)
  have h2 := (hd (fun _ _ => Outcome.ret none none w)).symm.trans (ha _)
  have h3 : Outcome.panic w = Outcome.ret none none w := h1.trans h2.symm
  exact Outcome.noConfusion h3

theorem optHosts_cases (ot : Option DomainTrie) (h : handler) (r : Msg) (w : World) :
    (match ot with
      | some t => withHosts t
      | none => fun g => g) h r w = h r w
    ∨ ∃ (t : DomainTrie) (o : Outcome),
        ot = some t ∧ (∀ next : handler, withHosts t next r w = o) ∧ HostsOwn r w o
        ∧ (match ot with
            | some t => withHosts t
            | none => fun g => g) h r w = o := by
  cases ot with
  | none => exact Or.inl rfl
  | some t =>
    rcases withHosts_cases t r w with hd | ⟨o, ha, ho⟩
    · exact Or.inl (hd h)
    · exact Or.inr ⟨t, o, rfl, ha, ho, ha h⟩

theorem afterHosts_cases (lib : GoLib) (ttl : Nat) (resolver : Resolver)
    (mapper : ResolverEnhancer) (r : Msg) (w : World) :
    (mapper.mode = DNSMode.DNSFakeIP
        ∧ (∀ next : handler,
            withFakeIP ttl mapper.fakePool next r w = afterHosts lib ttl resolver mapper r w)
        ∧ FakeOwn r w (afterHosts lib ttl resolver mapper r w))
      ∨ (mapper.mode ≠ DNSMode.DNSNormal
        ∧ afterHosts lib ttl resolver mapper r w = withMapping lib (withResolver resolver) r w)
      ∨ (mapper.mode = DNSMode.DNSNormal
        ∧ afterHosts lib ttl resolver mapper r w = withResolver resolver r w) := by
  by_cases hF : mapper.mode = DNSMode.DNSFakeIP
  · have hN : mapper.mode ≠ DNSMode.DNSNormal := by rw [hF]; decide
    have hU : afterHosts lib ttl resolver mapper
        = withFakeIP ttl mapper.fakePool (withMapping lib (withResolver resolver)) := by
      simp [afterHosts, hF]
    rcases withFakeIP_cases ttl mapper.fakePool r w with hd | ⟨o, ha, ho⟩
    · exact Or.inr (Or.inl ⟨hN, by rw [hU]; exact hd _⟩)
    · have ho2 : afterHosts lib ttl resolver mapper r w = o := by rw [hU]; exact ha _
      exact Or.inl ⟨hF, fun next => (ha next).trans ho2.symm, by rw [ho2]; exact ho⟩
  · by_cases hN : mapper.mode = DNSMode.DNSNormal
    · exact Or.inr (Or.inr ⟨hN, by simp [afterHosts, hN]⟩)
    · exact Or.inr (Or.inl ⟨hN, by simp [afterHosts, hF, hN]⟩)

/-- Every call of the pipeline ends in one of four ways: an installed hosts
stage answers alone, the fake-address stage answers alone, or the call is
that of the mapping stage over the upstream responder, or of the upstream
responder itself. -/
theorem newHandler_cases (lib : GoLib) (ttl : Nat) (resolver : Resolver)
    (mapper : ResolverEnhancer) (r : Msg) (w : World) :
    (∃ t : DomainTrie,
        (resolver.localHosts = some t ∨ resolver.hosts = some t)
        ∧ (∀ next : handler, withHosts t next r w = newHandler lib ttl resolver mapper r w)
        ∧ HostsOwn r w (newHandler lib ttl resolver mapper r w))
      ∨ (mapper.mode = DNSMode.DNSFakeIP
        ∧ (∀ next : handler,
            withFakeIP ttl mapper.fakePool next r w = newHandler lib ttl resolver mapper r w)
        ∧ FakeOwn r w (newHandler lib ttl resolver mapper r w))
      ∨ (mapper.mode ≠ DNSMode.DNSNormal
        ∧ newHandler lib ttl resolver mapper r w = withMapping lib (withResolver resolver) r w)
      ∨ (mapper.mode = DNSMode.DNSNormal
        ∧ newHandler lib ttl resolver mapper r w = withResolver resolver r w) := by
  rw [newHandler_unfold]
  rcases optHosts_cases resolver.localHosts
      ((match resolver.hosts with
        | some t => withHosts t
        | none => fun g => g) (afterHosts lib ttl resolver mapper)) r w with h1 | ⟨t, o, ht, ha, ho, h1⟩
  · rw [h1]
    rcases optHosts_cases resolver.hosts (afterHosts lib ttl resolver mapper) r w
      with h2 | ⟨t, o, ht, ha, ho, h2⟩
    · rw [h2]
      rcases afterHosts_cases lib ttl resolver mapper r w with h3 | h3 | h3
      · exact Or.inr (Or.inl h3)
      · exact Or.inr (Or.inr (Or.inl h3))
      · exact Or.inr (Or.inr (Or.inr h3))
    · rw [h2]
      exact Or.inl ⟨t, Or.inr ht, ha, ho⟩
  · rw [h1]
    exact Or.inl ⟨t, Or.inl ht, ha, ho⟩

/-- The ways `withResolver` ends a call; `Raw` is set in all of them. -/
theorem withResolver_cases (resolver : Resolver) (r : Msg) (w : World) :
    (r.Question = [] ∧ withResolver resolver r w = Outcome.panic (w.SetType DNSType.Raw))
      ∨ (∃ (q : Question) (qs : List Question),
          r.Question = q :: qs ∧ resolver.ipv6 = false ∧ q.Qtype = TypeAAAA
          ∧ withResolver resolver r w
              = Outcome.ret (some (handleMsgWithEmptyAnswer r)) none (w.SetType DNSType.Raw))
      ∨ (∃ (q : Question) (qs : List Question),
          r.Question = q :: qs ∧ ¬ (resolver.ipv6 = false ∧ q.Qtype = TypeAAAA)
          ∧ ((∃ (M : Option Msg) (e : Error),
                resolver.Exchange w.exchanges r = (M, some e)
                ∧ withResolver resolver r w
                    = Outcome.ret M (some e)
                        { w.SetType DNSType.Raw with exchanges := w.exchanges ++ [r] })
            ∨ (resolver.Exchange w.exchanges r = (none, none)
                ∧ withResolver resolver r w
                    = Outcome.panic
                        { w.SetType DNSType.Raw with exchanges := w.exchanges ++ [r] })
            ∨ (∃ M : Msg,
                resolver.Exchange w.exchanges r = (some M, none)
                ∧ withResolver resolver r w
                    = Outcome.ret (some { M.SetRcode r M.Rcode with Authoritative := true }) none
                        { w.SetType DNSType.Raw with exchanges := w.exchanges ++ [r] }))) := by
  cases hQ : r.Question with
  | nil => exact Or.inl ⟨rfl, by simp only [withResolver, hQ]⟩
  | cons q qs =>
    by_cases hshort : resolver.ipv6 = false ∧ q.Qtype = TypeAAAA
    · refine Or.inr (Or.inl ⟨q, qs, rfl, hshort.1, hshort.2, ?_⟩)
      simp [withResolver, hQ, hshort.1, hshort.2]
    · have hcond : (!resolver.ipv6 && q.Qtype == TypeAAAA) = false := by
        cases h6 : resolver.ipv6 with
        | true => simp
        | false =>
          have : q.Qtype ≠ TypeAAAA := fun h => hshort ⟨h6, h⟩
          simp [this]
      refine Or.inr (Or.inr ⟨q, qs, rfl, hshort, ?_⟩)
      have hex : resolver.Exchange (w.SetType DNSType.Raw).exchanges r
          = resolver.Exchange w.exchanges r := rfl
      rcases hres : resolver.Exchange w.exchanges r with ⟨M, _ | e⟩
      · cases M with
        | none =>
          refine Or.inr (Or.inl ⟨rfl, ?_⟩)
          simp only [withResolver, hQ, hcond, hex, hres, Bool.false_eq_true, if_false]
          rfl
        | some M =>
          refine Or.inr (Or.inr ⟨M, rfl, ?_⟩)
          simp only [withResolver, hQ, hcond, hex, hres, Bool.false_eq_true, if_false]
          rfl
      · refine Or.inl ⟨M, e, rfl, ?_⟩
        simp only [withResolver, hQ, hcond, hex, hres, Bool.false_eq_true, if_false]
        rfl

/-- The ways `withMapping` ends a call, in terms of the call of `next`. -/
theorem withMapping_cases (lib : GoLib) (next : handler) (r : Msg) (w : World) :
    (r.Question = [] ∧ withMapping lib next r w = Outcome.panic w)
      ∨ withMapping lib next r w = next r w
      ∨ (∃ (m : Option Msg) (e : Error) (w1 : World),
          next r w = Outcome.ret m (some e) w1
          ∧ withMapping lib next r w = Outcome.ret none (some e) w1)
      ∨ (∃ w1 : World,
          next r w = Outcome.ret none none w1 ∧ withMapping lib next r w = Outcome.panic w1)
      ∨ (∃ (M : Msg) (w1 : World) (q : Question) (qs : List Question),
          r.Question = q :: qs ∧ isIPRequest q = true
          ∧ next r w = Outcome.ret (some M) none w1
          ∧ withMapping lib next r w
              = Outcome.ret (some M) none (mappingLoop lib (TrimRight q.Name ".") M.Answer w1)) := by
  cases hQ : r.Question with
  | nil => exact Or.inl ⟨rfl, by simp only [withMapping, hQ]⟩
  | cons q qs =>
    cases hip : isIPRequest q with
    | false =>
      exact Or.inr (Or.inl (by simp only [withMapping, hQ, hip, Bool.not_false, if_true]))
    | true =>
      cases hn : next r w with
      | panic w1 =>
        exact Or.inr (Or.inl (by
          simp only [withMapping, hQ, hip, hn, Bool.not_true, Bool.false_eq_true, if_false]))
      | ret m err w1 =>
        cases err with
        | some e =>
          exact Or.inr (Or.inr (Or.inl ⟨m, e, w1, rfl, by
            simp only [withMapping, hQ, hip, hn, Bool.not_true, Bool.false_eq_true, if_false]⟩))
        | none =>
          cases m with
          | none =>
            exact Or.inr (Or.inr (Or.inr (Or.inl ⟨w1, rfl, by
              simp only [withMapping, hQ, hip, hn, Bool.not_true, Bool.false_eq_true,
                if_false]⟩)))
          | some M =>
            exact Or.inr (Or.inr (Or.inr (Or.inr ⟨M, w1, q, qs, rfl, hip, rfl, by
              simp only [withMapping, hQ, hip, hn, Bool.not_true, Bool.false_eq_true,
                if_false]⟩)))

theorem HostsOwn_world (r : Msg) (w : World) (o : Outcome) (h : HostsOwn r w o) :
    o.world.exchanges = w.exchanges ∧ o.world.mapping = w.mapping
      ∧ o.world.lookups = w.lookups := by
  rcases h with ⟨_, rfl⟩ | rfl | ⟨answer, _, rfl⟩ <;> exact ⟨rfl, rfl, rfl⟩

theorem FakeOwn_world (r : Msg) (w : World) (o : Outcome) (h : FakeOwn r w o) :
    o.world.exchanges = w.exchanges ∧ o.world.mapping = w.mapping := by
  rcases h with ⟨_, rfl⟩ | rfl | ⟨m, q, qs, _, _, rfl⟩ <;> exact ⟨rfl, rfl⟩

/-- What the upstream responder does to the log of exchanges, alone or under
the mapping stage: nothing, or one entry; and with one entry a failure of the
exchange is the error returned. -/
theorem upstream_exchange (lib : GoLib) (resolver : Resolver) (r : Msg) (w : World)
    (o : Outcome)
    (ho : o = withResolver resolver r w ∨ o = withMapping lib (withResolver resolver) r w) :
    (o.world.exchanges = w.exchanges ∨ o.world.exchanges = w.exchanges ++ [r])
      ∧ (o.world.exchanges ≠ w.exchanges →
          ∀ (M : Option Msg) (e : Error), resolver.Exchange w.exchanges r = (M, some e) →
            ∃ M1 : Option Msg, o = Outcome.ret M1 (some e) o.world) := by
  have hres : ∀ o1 : Outcome, o1 = withResolver resolver r w →
      (o1.world.exchanges = w.exchanges ∨ o1.world.exchanges = w.exchanges ++ [r])
      ∧ (o1.world.exchanges ≠ w.exchanges →
          ∀ (M : Option Msg) (e : Error), resolver.Exchange w.exchanges r = (M, some e) →
            ∃ M1 : Option Msg, o1 = Outcome.ret M1 (some e) o1.world) := by
    intro o1 ho1
    rcases withResolver_cases resolver r w with ⟨_, h⟩ | ⟨q, qs, _, _, _, h⟩
        | ⟨q, qs, _, _, ⟨M, e, hx, h⟩ | ⟨hx, h⟩ | ⟨M, hx, h⟩⟩
    · rw [ho1, h]; exact ⟨Or.inl rfl, fun hne => absurd rfl hne⟩
    · rw [ho1, h]; exact ⟨Or.inl rfl, fun hne => absurd rfl hne⟩
    · rw [ho1, h]
      refine ⟨Or.inr rfl, fun _ M2 e2 hx2 => ?_⟩
      rw [hx] at hx2
      injection hx2 with h1 h2
      injection h2 with h3
      subst h3
      exact ⟨M, rfl⟩
    · rw [ho1, h]
      refine ⟨Or.inr rfl, fun _ M2 e2 hx2 => ?_⟩
      rw [hx] at hx2
      injection hx2 with h1 h2
      exact Option.noConfusion h2
    · rw [ho1, h]
      refine ⟨Or.inr rfl, fun _ M2 e2 hx2 => ?_⟩
      rw [hx] at hx2
      injection hx2 with h1 h2
      exact Option.noConfusion h2
  rcases ho with ho | ho
  · exact hres o ho
  · obtain ⟨hA, hB⟩ := hres (withResolver resolver r w) rfl
    rcases withMapping_cases lib (withResolver resolver) r w with ⟨_, h⟩ | h
        | ⟨m, e, w1, hn, h⟩ | ⟨w1, hn, h⟩ | ⟨M, w1, q, qs, _, _, hn, h⟩
    · rw [ho, h]; exact ⟨Or.inl rfl, fun hne => absurd rfl hne⟩
    · rw [ho, h]; exact ⟨hA, hB⟩
    · rw [hn] at hA hB
      rw [ho, h]
      refine ⟨hA, fun hne M2 e2 hx2 => ?_⟩
      obtain ⟨M1, hM1⟩ := hB hne M2 e2 hx2
      injection hM1 with _ h2 _
      injection h2 with h3
      subst h3
      exact ⟨none, rfl⟩
    · rw [hn] at hA hB
      rw [ho, h]
      refine ⟨hA, fun hne M2 e2 hx2 => ?_⟩
      obtain ⟨M1, hM1⟩ := hB hne M2 e2 hx2
      injection hM1 with _ h2 _
      exact Option.noConfusion h2
    · rw [hn] at hA hB
      have hx := (mappingLoop_spec lib (TrimRight q.Name ".") M.Answer w1).2.2.2.1
      rw [ho, h]
      refine ⟨by simpa only [Outcome.world, hx] using hA, fun hne M2 e2 hx2 => ?_⟩
      have hne1 : w1.exchanges ≠ w.exchanges := by simpa only [Outcome.world, hx] using hne
      obtain ⟨M1, hM1⟩ := hB hne1 M2 e2 hx2
      injection hM1 with _ h2 _
      exact Option.noConfusion h2

/-- C14: in every pipeline and for every request, `Exchange` is given at
most one request (the log of exchanges is unchanged or longer by the request),
and when it is called and fails with error `e` the pipeline returns exactly
the error `e`: no stage turns the failure into an answer or another error. -/
theorem newHandler_exchange_failure (lib : GoLib) (ttl : Nat) (resolver : Resolver)
    (mapper : ResolverEnhancer) (r : Msg) (w : World) :
    ((newHandler lib ttl resolver mapper r w).world.exchanges = w.exchanges
        ∨ (newHandler lib ttl resolver mapper r w).world.exchanges = w.exchanges ++ [r])
      ∧ ((newHandler lib ttl resolver mapper r w).world.exchanges ≠ w.exchanges →
          ∀ (M : Option Msg) (e : Error), resolver.Exchange w.exchanges r = (M, some e) →
            ∃ M1 : Option Msg,
              newHandler lib ttl resolver mapper r w
                = Outcome.ret M1 (some e) (newHandler lib ttl resolver mapper r w).world) := by
  rcases newHandler_cases lib ttl resolver mapper r w with ⟨t, _, _, ho⟩ | ⟨_, _, ho⟩
      | ⟨_, ho⟩ | ⟨_, ho⟩
  · have hw := (HostsOwn_world r w _ ho).1
    exact ⟨Or.inl hw, fun hne => absurd hw hne⟩
  · have hw := (FakeOwn_world r w _ ho).1
    exact ⟨Or.inl hw, fun hne => absurd hw hne⟩
  · exact upstream_exchange lib resolver r w _ (Or.inr ho)
  · exact upstream_exchange lib resolver r w _ (Or.inl ho)

theorem newHandler_exchange_failure_witness :
    (newHandler sampleLib 600 sampleResolverFailing (sampleEnhancer DNSMode.DNSMapping)
        (sampleRequest "example.com." TypeA) sampleWorld).world.exchanges ≠ sampleWorld.exchanges
      ∧ sampleResolverFailing.Exchange sampleWorld.exchanges (sampleRequest "example.com." TypeA)
          = (none, some "upstream unreachable")
      ∧ ∃ M1 : Option Msg,
          newHandler sampleLib 600 sampleResolverFailing (sampleEnhancer DNSMode.DNSMapping)
              (sampleRequest "example.com." TypeA) sampleWorld
            = Outcome.ret M1 (some "upstream unreachable")
                (newHandler sampleLib 600 sampleResolverFailing
                  (sampleEnhancer DNSMode.DNSMapping)
                  (sampleRequest "example.com." TypeA) sampleWorld).world :=
  ⟨by decide, rfl,
    (newHandler_exchange_failure sampleLib 600 sampleResolverFailing
      (sampleEnhancer DNSMode.DNSMapping) (sampleRequest "example.com." TypeA) sampleWorld).2
      (by decide) none "upstream unreachable" rfl⟩

theorem withResolver_world (resolver : Resolver) (r : Msg) (w : World) :
    (withResolver resolver r w).world.tags = w.tags ++ [DNSType.Raw]
      ∧ (withResolver resolver r w).world.mapping = w.mapping
      ∧ (withResolver resolver r w).world.lookups = w.lookups := by
  rcases withResolver_cases resolver r w with ⟨_, h⟩ | ⟨q, qs, _, _, _, h⟩
      | ⟨q, qs, _, _, ⟨M, e, _, h⟩ | ⟨_, h⟩ | ⟨M, _, h⟩⟩ <;>
    · rw [h]
      exact ⟨rfl, rfl, rfl⟩

/-- The mapping stage leaves the tags as `next` left them, unless it panics
before calling `next`. -/
theorem withMapping_tags (lib : GoLib) (next : handler) (r : Msg) (w : World) :
    (withMapping lib next r w).world.tags = w.tags
      ∨ (withMapping lib next r w).world.tags = (next r w).world.tags := by
  rcases withMapping_cases lib next r w with ⟨_, h⟩ | h
      | ⟨m, e, w1, hn, h⟩ | ⟨w1, hn, h⟩ | ⟨M, w1, q, qs, _, _, hn, h⟩
  · rw [h]; exact Or.inl rfl
  · rw [h]; exact Or.inr rfl
  · rw [h, hn]; exact Or.inr rfl
  · rw [h, hn]; exact Or.inr rfl
  · rw [h, hn]
    exact Or.inr (mappingLoop_spec lib (TrimRight q.Name ".") M.Answer w1).2.1

/-- C15: in every pipeline and for every request the tag of the context is
set at most once, and a tag that is set names the stage that ended the call:
Host only when an installed hosts stage answers alone with a reply that holds
records, FakeIP only when the fake-address stage answers alone in FakeIP mode,
Raw only when the call is that of the upstream responder (alone or under the
mapping stage). -/
theorem newHandler_tag_once (lib : GoLib) (ttl : Nat) (resolver : Resolver)
    (mapper : ResolverEnhancer) (r : Msg) (w : World) :
    (newHandler lib ttl resolver mapper r w).world.tags = w.tags
      ∨ ((newHandler lib ttl resolver mapper r w).world.tags = w.tags ++ [DNSType.Host]
          ∧ ∃ (t : DomainTrie) (answer : List RR),
              (resolver.localHosts = some t ∨ resolver.hosts = some t)
              ∧ (∀ next : handler,
                  withHosts t next r w = newHandler lib ttl resolver mapper r w)
              ∧ answer ≠ []
              ∧ newHandler lib ttl resolver mapper r w
                  = Outcome.ret (some (hostsReply r answer)) none (w.SetType DNSType.Host))
      ∨ ((newHandler lib ttl resolver mapper r w).world.tags = w.tags ++ [DNSType.FakeIP]
          ∧ mapper.mode = DNSMode.DNSFakeIP
          ∧ (∀ next : handler,
              withFakeIP ttl mapper.fakePool next r w = newHandler lib ttl resolver mapper r w)
          ∧ ∃ m : Msg,
              newHandler lib ttl resolver mapper r w
                = Outcome.ret (some m) none (newHandler lib ttl resolver mapper r w).world)
      ∨ ((newHandler lib ttl resolver mapper r w).world.tags = w.tags ++ [DNSType.Raw]
          ∧ (newHandler lib ttl resolver mapper r w = withResolver resolver r w
              ∨ newHandler lib ttl resolver mapper r w
                  = withMapping lib (withResolver resolver) r w)) := by
  rcases newHandler_cases lib ttl resolver mapper r w with ⟨t, ht, ha, ho⟩ | ⟨hF, ha, ho⟩
      | ⟨_, ho⟩ | ⟨_, ho⟩
  · rcases ho with ⟨_, h⟩ | h | ⟨answer, hne, h⟩
    · rw [h]; exact Or.inl rfl
    · rw [h]; exact Or.inl rfl
    · refine Or.inr (Or.inl ⟨by rw [h]; rfl, t, answer, ht, ha, hne, h⟩)
  · rcases ho with ⟨_, h⟩ | h | ⟨m, q, qs, _, _, h⟩
    · rw [h]; exact Or.inl rfl
    · rw [h]; exact Or.inl rfl
    · refine Or.inr (Or.inr (Or.inl ⟨by rw [h]; rfl, hF, ha, m, ?_⟩))
      rw [h]; rfl
  · rcases withMapping_tags lib (withResolver resolver) r w with h | h
    · exact Or.inl (by rw [ho]; exact h)
    · refine Or.inr (Or.inr (Or.inr ⟨?_, Or.inr ho⟩))
      rw [ho, h]
      exact (withResolver_world resolver r w).1
  · refine Or.inr (Or.inr (Or.inr ⟨?_, Or.inl ho⟩))
    rw [ho]
    exact (withResolver_world resolver r w).1

/-- C20: in every pipeline and for every request, the mapping cache holds
after the call what it held before, unless the mode installs the mapping stage
and the upstream responder was reached and returned an answer `M` without
error, in which case the writes are those of the mapping stage for `M`. In
particular the cache is unchanged whenever a hosts stage or the fake-address
stage gives the final outcome alone. -/
theorem newHandler_mapping_writes (lib : GoLib) (ttl : Nat) (resolver : Resolver)
    (mapper : ResolverEnhancer) (r : Msg) (w : World) :
    ((newHandler lib ttl resolver mapper r w).world.mapping = w.mapping
        ∨ (mapper.mode ≠ DNSMode.DNSNormal
            ∧ ∃ (M : Msg) (w1 : World) (q : Question) (qs : List Question),
                r.Question = q :: qs
                ∧ withResolver resolver r w = Outcome.ret (some M) none w1
                ∧ w1.mapping = w.mapping
                ∧ newHandler lib ttl resolver mapper r w
                    = Outcome.ret (some M) none
                        (mappingLoop lib (TrimRight q.Name ".") M.Answer w1)))
      ∧ (∀ t : DomainTrie,
          (∀ next : handler, withHosts t next r w = newHandler lib ttl resolver mapper r w) →
            (newHandler lib ttl resolver mapper r w).world.mapping = w.mapping)
      ∧ (∀ (ttl1 : Nat) (pool : Pool),
          (∀ next : handler,
            withFakeIP ttl1 pool next r w = newHandler lib ttl resolver mapper r w) →
            (newHandler lib ttl resolver mapper r w).world.mapping = w.mapping) := by
  refine ⟨?_, ?_, ?_⟩
  · rcases newHandler_cases lib ttl resolver mapper r w with ⟨t, _, _, ho⟩ | ⟨_, _, ho⟩
        | ⟨hN, ho⟩ | ⟨_, ho⟩
    · exact Or.inl (HostsOwn_world r w _ ho).2.1
    · exact Or.inl (FakeOwn_world r w _ ho).2
    · have hW := (withResolver_world resolver r w).2.1
      rcases withMapping_cases lib (withResolver resolver) r w with ⟨_, h⟩ | h
          | ⟨m, e, w1, hn, h⟩ | ⟨w1, hn, h⟩ | ⟨M, w1, q, qs, hq, _, hn, h⟩
      · exact Or.inl (by rw [ho, h]; rfl)
      · exact Or.inl (by rw [ho, h]; exact hW)
      · rw [hn] at hW
        exact Or.inl (by rw [ho, h]; exact hW)
      · rw [hn] at hW
        exact Or.inl (by rw [ho, h]; exact hW)
      · rw [hn] at hW
        exact Or.inr ⟨hN, M, w1, q, qs, hq, hn, hW, by rw [ho, h]⟩
    · exact Or.inl (by rw [ho]; exact (withResolver_world resolver r w).2.1)
  · intro t ha
    rcases withHosts_cases t r w with hd | ⟨o, ha2, ho⟩
    · exact absurd ha (fun ha => delegates_not_answers (withHosts t) r w _ hd ha)
    · have : newHandler lib ttl resolver mapper r w = o :=
        (ha (fun _ _ => Outcome.panic w)).symm.trans (ha2 _)
      rw [this]
      exact (HostsOwn_world r w o ho).2.1
  · intro ttl1 pool ha
    rcases withFakeIP_cases ttl1 pool r w with hd | ⟨o, ha2, ho⟩
    · exact absurd ha (fun ha => delegates_not_answers (withFakeIP ttl1 pool) r w _ hd ha)
    · have : newHandler lib ttl resolver mapper r w = o :=
        (ha (fun _ _ => Outcome.panic w)).symm.trans (ha2 _)
      rw [this]
      exact (FakeOwn_world r w o ho).2

theorem newHandler_mapping_writes_witness :
    (∀ next : handler,
        withFakeIP 600 samplePool next (sampleRequest "example.com." TypeA) sampleWorld
          = newHandler sampleLib 600 sampleResolver (sampleEnhancer DNSMode.DNSFakeIP)
              (sampleRequest "example.com." TypeA) sampleWorld)
      ∧ (newHandler sampleLib 600 sampleResolver (sampleEnhancer DNSMode.DNSFakeIP)
          (sampleRequest "example.com." TypeA) sampleWorld).world.mapping
          = sampleWorld.mapping :=
  ⟨fun _ => rfl,
    (newHandler_mapping_writes sampleLib 600 sampleResolver (sampleEnhancer DNSMode.DNSFakeIP)
      (sampleRequest "example.com." TypeA) sampleWorld).2.2 600 samplePool (fun _ => rfl)⟩

/-! ### The pipeline on particular queries -/

theorem withHosts_miss (hosts : DomainTrie) (r : Msg) (w : World) (q : Question)
    (qs : List Question) (hq : r.Question = q :: qs)
    (hs : hosts.Search (ToLower (TrimRight q.Name ".")) = none) :
    ∀ next : handler, withHosts hosts next r w = next r w := by
  intro next
  cases hg : isIPorPTRRequest q with
  | false => simp only [withHosts, hq, hg, Bool.not_false, if_true]
  | true => simp only [withHosts, hq, hg, hs, Bool.not_true, Bool.false_eq_true, if_false]

theorem withResolver_short (resolver : Resolver) (r : Msg) (w : World) (q : Question)
    (qs : List Question) (hq : r.Question = q :: qs) (hA : q.Qtype = TypeAAAA)
    (h6 : resolver.ipv6 = false) :
    withResolver resolver r w
      = Outcome.ret (some (handleMsgWithEmptyAnswer r)) none (w.SetType DNSType.Raw) := by
  simp [withResolver, hq, hA, h6]

theorem withMapping_short (lib : GoLib) (resolver : Resolver) (r : Msg) (w : World)
    (q : Question) (qs : List Question) (hq : r.Question = q :: qs) (hA : q.Qtype = TypeAAAA)
    (h6 : resolver.ipv6 = false) :
    withMapping lib (withResolver resolver) r w
      = Outcome.ret (some (handleMsgWithEmptyAnswer r)) none (w.SetType DNSType.Raw) := by
  have hip : isIPRequest q = true := by simp [isIPRequest, hA]
  have hempty := (handleMsgWithEmptyAnswer_shape r).1
  simp only [withMapping, hq, hip, withResolver_short resolver r w q qs hq hA h6, Bool.not_true,
    Bool.false_eq_true, if_false, hempty, mappingLoop]

/-- C11, as the claim states it, fails: with IPv6 disabled, an AAAA query for
a name that the hosts table gives an IPv6 address is answered by the hosts
stage with an AAAA record, not with an answer of zero records. -/
theorem newHandler_AAAA_answered_from_hosts :
    let q : Question := { Name := "v6.example.", Qtype := TypeAAAA, Qclass := ClassINET }
    sampleResolverV6Hosts.ipv6 = false
      ∧ (sampleRequest "v6.example." TypeAAAA).Question = [q] ∧ q.Qtype = TypeAAAA
      ∧ ∃ m : Msg,
          newHandler sampleLib 600 sampleResolverV6Hosts (sampleEnhancer DNSMode.DNSNormal)
              (sampleRequest "v6.example." TypeAAAA) sampleWorld
            = Outcome.ret (some m) none (sampleWorld.SetType DNSType.Host)
          ∧ m.Answer
              = [RR.AAAA { Name := "v6.example.", Rrtype := TypeAAAA, Class := ClassINET, Ttl := 60 }
                  [32, 1, 13, 184, 0, 0, 0, 0, 0, 0, 0, 0, 0, 0, 0, 1]]
          ∧ m.Answer ≠ [] := by
  refine ⟨rfl, rfl, rfl, _, rfl, by decide, by decide⟩

theorem foldl_hostsAppendIP_AAAA_none (q : Question) (hA : q.Qtype = TypeAAAA) (l : List IP) :
    ∀ acc : List RR, (∀ ip ∈ l, To16 ip = none) → l.foldl (hostsAppendIP q) acc = acc := by
  induction l with
  | nil => intro acc _; rfl
  | cons ip rest ih =>
    intro acc h
    have hip : To16 ip = none := h ip (List.mem_cons_self _ _)
    have hne : q.Qtype ≠ TypeA := by rw [hA]; decide
    have hstep : hostsAppendIP q acc ip = acc := by
      unfold hostsAppendIP
      rw [if_neg hne, if_pos hA, hip]
    rw [List.foldl_cons, hstep]
    exact ih acc (fun x hx => h x (List.mem_cons_of_mem _ hx))

/-- A hosts table without reply of its own to an AAAA request hands the
request on or gives the empty answer. -/
theorem withHosts_AAAA_no_reply (t : DomainTrie) (r : Msg) (w : World) (q : Question)
    (qs : List Question) (hq : r.Question = q :: qs) (hA : q.Qtype = TypeAAAA)
    (h : noHostsReply t r (ToLower (TrimRight q.Name "."))) :
    (∀ next : handler, withHosts t next r w = next r w)
      ∨ (∀ next : handler,
          withHosts t next r w = Outcome.ret (some (handleMsgWithEmptyAnswer r)) none w) := by
  have hguard : isIPorPTRRequest q = true := by simp [isIPorPTRRequest, hA]
  have hnp : q.Qtype ≠ TypePTR := by rw [hA]; decide
  rcases h with hmiss | ⟨l, hrec, hl⟩ | ⟨hans, hips⟩
  · exact Or.inl (withHosts_miss t r w q qs hq hmiss)
  · right
    intro next
    cases l with
    | nil => exact absurd rfl hl
    | cons p ps =>
      simp only [withHosts, hq, hguard, hrec, Msg.Copy, hostsPtrLoop_not_PTR q hnp,
        Bool.not_true, Bool.false_eq_true, if_false, Option.map_none']
  · have hcopy : r.Copy.Answer = [] := hans
    cases hs : t.Search (ToLower (TrimRight q.Name ".")) with
    | none => exact Or.inl (withHosts_miss t r w q qs hq hs)
    | some data =>
      cases data with
      | ips l =>
        have hfold : l.foldl (hostsAppendIP q) r.Copy.Answer = [] := by
          rw [foldl_hostsAppendIP_AAAA_none q hA l r.Copy.Answer (hips l hs), hcopy]
        exact Or.inl (fun next => by
          simp only [withHosts, hq, hguard, hs, hfold, Bool.not_true, Bool.false_eq_true,
            if_false, List.length_nil, gt_iff_lt, Nat.lt_irrefl])
      | ptrs l =>
        cases l with
        | nil =>
          exact Or.inl (fun next => by
            simp only [withHosts, hq, hguard, hs, hostsPtrLoop, hcopy, Option.map_some',
              Bool.not_true, Bool.false_eq_true, if_false, List.length_nil, gt_iff_lt,
              Nat.lt_irrefl])
        | cons p ps =>
          exact Or.inr (fun next => by
            simp only [withHosts, hq, hguard, hs, Msg.Copy, hostsPtrLoop_not_PTR q hnp,
              Bool.not_true, Bool.false_eq_true, if_false, Option.map_none'])
      | other =>
        exact Or.inl (fun next => by
          simp only [withHosts, hq, hguard, hs, hcopy, Bool.not_true, Bool.false_eq_true,
            if_false, List.length_nil, gt_iff_lt, Nat.lt_irrefl])

/-- C11, amended: with IPv6 disabled, for every hosts configuration and mode,
the pipeline returns for an AAAA query no error and an answer with rcode
Success, and gives no request to `Exchange`. The answer is the successful
empty answer (no record in any section) unless an installed hosts stage
answers the query alone with a reply that holds records, tagged Host; it is
the empty answer whenever every installed hosts table has for the normalized
name no record, or a pointer list with at least one name, or, the request
carrying no answer record, no address list holding an address that `To16`
accepts. -/
theorem newHandler_AAAA_ipv6_disabled (lib : GoLib) (ttl : Nat) (resolver : Resolver)
    (mapper : ResolverEnhancer) (r : Msg) (w : World) (q : Question) (qs : List Question)
    (hq : r.Question = q :: qs) (hA : q.Qtype = TypeAAAA) (h6 : resolver.ipv6 = false) :
    ∃ (m : Msg) (w1 : World),
      newHandler lib ttl resolver mapper r w = Outcome.ret (some m) none w1
      ∧ w1.exchanges = w.exchanges
      ∧ m.Rcode = RcodeSuccess
      ∧ ((m = handleMsgWithEmptyAnswer r ∧ m.Answer = [] ∧ m.Ns = [] ∧ m.Extra = [])
          ∨ ∃ (t : DomainTrie) (answer : List RR),
              (resolver.localHosts = some t ∨ resolver.hosts = some t)
              ∧ answer ≠ [] ∧ m = hostsReply r answer ∧ w1 = w.SetType DNSType.Host
              ∧ ∀ next : handler, withHosts t next r w = Outcome.ret (some m) none w1)
      ∧ ((∀ t : DomainTrie, (resolver.localHosts = some t ∨ resolver.hosts = some t) →
            noHostsReply t r (ToLower (TrimRight q.Name "."))) →
          m = handleMsgWithEmptyAnswer r ∧ m.Answer = [] ∧ m.Ns = [] ∧ m.Extra = []) := by
  obtain ⟨ha, hn, he, hr, _, _⟩ := handleMsgWithEmptyAnswer_shape r
  have hempty : ∀ w1 : World,
      newHandler lib ttl resolver mapper r w
          = Outcome.ret (some (handleMsgWithEmptyAnswer r)) none w1 →
        w1.exchanges = w.exchanges →
        ∃ (m : Msg) (w1 : World),
          newHandler lib ttl resolver mapper r w = Outcome.ret (some m) none w1
          ∧ w1.exchanges = w.exchanges
          ∧ m.Rcode = RcodeSuccess
          ∧ ((m = handleMsgWithEmptyAnswer r ∧ m.Answer = [] ∧ m.Ns = [] ∧ m.Extra = [])
              ∨ ∃ (t : DomainTrie) (answer : List RR),
                  (resolver.localHosts = some t ∨ resolver.hosts = some t)
                  ∧ answer ≠ [] ∧ m = hostsReply r answer ∧ w1 = w.SetType DNSType.Host
                  ∧ ∀ next : handler, withHosts t next r w = Outcome.ret (some m) none w1)
          ∧ ((∀ t : DomainTrie, (resolver.localHosts = some t ∨ resolver.hosts = some t) →
                noHostsReply t r (ToLower (TrimRight q.Name "."))) →
              m = handleMsgWithEmptyAnswer r ∧ m.Answer = [] ∧ m.Ns = [] ∧ m.Extra = []) :=
    fun w1 h hx => ⟨_, w1, h, hx, hr, Or.inl ⟨rfl, ha, hn, he⟩, fun _ => ⟨rfl, ha, hn, he⟩⟩
  rcases newHandler_cases lib ttl resolver mapper r w with ⟨t, ht, hans, ho⟩ | ⟨_, _, ho⟩
      | ⟨_, ho⟩ | ⟨_, ho⟩
  · rcases ho with ⟨hnil, _⟩ | h | ⟨answer, hne, h⟩
    · rw [hq] at hnil
      exact absurd hnil (List.cons_ne_nil _ _)
    · exact hempty w h rfl
    · refine ⟨_, _, h, rfl, (hostsReply_sections r answer).2.1,
        Or.inr ⟨t, answer, ht, hne, rfl, rfl, fun next => (hans next).trans h⟩, fun hno => ?_⟩
      rcases withHosts_AAAA_no_reply t r w q qs hq hA (hno t ht) with hd | he2
      · exact absurd hans (fun hans => delegates_not_answers (withHosts t) r w _ hd hans)
      · have heq : Outcome.ret (some (hostsReply r answer)) none (w.SetType DNSType.Host)
            = Outcome.ret (some (handleMsgWithEmptyAnswer r)) none w :=
          h.symm.trans ((hans (fun _ _ => Outcome.panic w)).symm.trans (he2 _))
        injection heq with h1 _ _
        injection h1 with h2
        rw [h2]
        exact ⟨rfl, ha, hn, he⟩
  · rcases ho with ⟨hnil, _⟩ | h | ⟨m, q1, qs1, hq1, hA1, _⟩
    · rw [hq] at hnil
      exact absurd hnil (List.cons_ne_nil _ _)
    · exact hempty w h rfl
    · rw [hq] at hq1
      injection hq1 with h1 _
      rw [← h1, hA] at hA1
      exact absurd hA1 (by decide)
  · exact hempty _ (ho.trans (withMapping_short lib resolver r w q qs hq hA h6)) rfl
  · exact hempty _ (ho.trans (withResolver_short resolver r w q qs hq hA h6)) rfl

theorem newHandler_AAAA_ipv6_disabled_witness :
    (sampleRequest "other.example." TypeAAAA).Question
        = [{ Name := "other.example.", Qtype := TypeAAAA, Qclass := ClassINET }]
      ∧ sampleResolverWithHosts.ipv6 = false
      ∧ sampleResolverWithHosts.localHosts = some sampleHosts
      ∧ sampleHosts.Search (ToLower (TrimRight "other.example." ".")) = none
      ∧ sampleResolverWithHosts.Exchange [] (sampleRequest "other.example." TypeAAAA)
          = (none, some "upstream unreachable")
      ∧ ∃ (m : Msg) (w1 : World),
        newHandler sampleLib 600 sampleResolverWithHosts (sampleEnhancer DNSMode.DNSMapping)
            (sampleRequest "other.example." TypeAAAA) sampleWorld
          = Outcome.ret (some m) none w1
        ∧ w1.exchanges = sampleWorld.exchanges
        ∧ w1.tags = [DNSType.Raw]
        ∧ m.Rcode = RcodeSuccess
        ∧ m = handleMsgWithEmptyAnswer (sampleRequest "other.example." TypeAAAA)
        ∧ m.Answer = [] ∧ m.Ns = [] ∧ m.Extra = [] := by
  refine ⟨rfl, rfl, rfl, by decide, rfl, ?_⟩
  obtain ⟨m, w1, h1, h2, h3, _, h5⟩ :=
    newHandler_AAAA_ipv6_disabled sampleLib 600 sampleResolverWithHosts
      (sampleEnhancer DNSMode.DNSMapping) (sampleRequest "other.example." TypeAAAA) sampleWorld
      { Name := "other.example.", Qtype := TypeAAAA, Qclass := ClassINET } [] rfl rfl rfl
  have hno : ∀ t : DomainTrie,
      (sampleResolverWithHosts.localHosts = some t ∨ sampleResolverWithHosts.hosts = some t) →
        noHostsReply t (sampleRequest "other.example." TypeAAAA)
          (ToLower (TrimRight "other.example." ".")) := by
    intro t ht
    rcases ht with ht | ht
    · have ht2 : sampleHosts = t := Option.some.inj ht
      rw [← ht2]
      exact Or.inl (by decide)
    · exact absurd ht (by intro h; exact Option.noConfusion h)
  obtain ⟨h6, h7, h8, h9⟩ := h5 hno
  have hw : Outcome.ret (some m) none w1
      = Outcome.ret (some (handleMsgWithEmptyAnswer (sampleRequest "other.example." TypeAAAA)))
          none (sampleWorld.SetType DNSType.Raw) := h1.symm.trans rfl
  have hw1 : w1 = sampleWorld.SetType DNSType.Raw := by
    injection hw
  exact ⟨m, w1, h1, h2, by rw [hw1]; rfl, h3, h6, h7, h8, h9⟩

theorem withHosts_ips_A_reply (hosts : DomainTrie) (r : Msg) (w : World)
    (q : Question) (qs : List Question) (l : List IP)
    (hq : r.Question = q :: qs) (hA : q.Qtype = TypeA)
    (hrec : hosts.Search (ToLower (TrimRight q.Name ".")) = some (HostData.ips l))
    (hv4 : ∃ ip ∈ l, (To4 ip).isSome = true) :
    ∀ next : handler,
      withHosts hosts next r w
        = Outcome.ret (some (hostsReply r (r.Answer ++ expectedARecords q l))) none
            (w.SetType DNSType.Host) := by
  intro next
  have hguard : isIPorPTRRequest q = true := by simp [isIPorPTRRequest, hA]
  have hfold : l.foldl (hostsAppendIP q) r.Copy.Answer = r.Answer ++ expectedARecords q l :=
    foldl_hostsAppendIP_A q hA l r.Answer
  have hne : r.Answer ++ expectedARecords q l ≠ [] := by
    intro h
    exact expectedARecords_ne_nil q l hv4 (List.append_eq_nil.mp h).2
  have hlen : 0 < (r.Answer ++ expectedARecords q l).length := List.length_pos.mpr hne
  simp only [withHosts, hq, hguard, hrec, hfold, Bool.not_true, Bool.false_eq_true,
    if_false, gt_iff_lt, hlen, if_true]
  rfl

/-- What the pipeline does, in every mode, FakeIP included, with a local
hosts table (and any secondary table) for an A query whose normalized name has
in the local table an address list with at least one IPv4-mappable address:
the outcome is that of the local hosts stage alone, whose Answer section is
the Answer section of the request followed by the A records of the table with
TTL 60; Host is the only tag set, the pool is not asked, the mapping cache is
not written and no request is exchanged upstream, whether or not the pool
exempts the hostname. -/
theorem newHandler_local_hosts_first (lib : GoLib) (ttl : Nat) (resolver : Resolver)
    (mapper : ResolverEnhancer) (r : Msg) (w : World) (t : DomainTrie)
    (q : Question) (qs : List Question) (l : List IP)
    (hlocal : resolver.localHosts = some t)
    (hq : r.Question = q :: qs) (hA : q.Qtype = TypeA)
    (hrec : t.Search (ToLower (TrimRight q.Name ".")) = some (HostData.ips l))
    (hv4 : ∃ ip ∈ l, (To4 ip).isSome = true) :
    ∃ (m : Msg) (w1 : World),
      newHandler lib ttl resolver mapper r w = Outcome.ret (some m) none w1
      ∧ (∀ next : handler, withHosts t next r w = Outcome.ret (some m) none w1)
      ∧ m.Answer = r.Answer ++ expectedARecords q l
      ∧ (∀ rr ∈ expectedARecords q l, rr ∈ m.Answer ∧ rr.Header.Ttl = 60)
      ∧ w1.tags = w.tags ++ [DNSType.Host]
      ∧ w1.lookups = w.lookups ∧ w1.mapping = w.mapping ∧ w1.exchanges = w.exchanges := by
  have hreply := withHosts_ips_A_reply t r w q qs l hq hA hrec hv4
  have hans := (hostsReply_sections r (r.Answer ++ expectedARecords q l)).1
  refine ⟨_, _, ?_, hreply, hans, ?_, rfl, rfl, rfl, rfl⟩
  · rw [newHandler_unfold, hlocal]
    exact hreply _
  · intro rr hrr
    refine ⟨by rw [hans]; exact List.mem_append_right _ hrr, ?_⟩
    unfold expectedARecords at hrr
    rw [List.mem_filterMap] at hrr
    obtain ⟨ip, _, hip⟩ := hrr
    cases h4 : To4 ip with
    | none => simp [h4] at hip
    | some v4 =>
      simp [h4] at hip
      subst hip
      rfl

theorem newHandler_local_hosts_first_witness :
    (sampleEnhancer DNSMode.DNSFakeIP).mode = DNSMode.DNSFakeIP
      ∧ sampleResolverWithHosts.localHosts = some sampleHosts
      ∧ samplePool.ShouldSkipped (TrimRight "Example.COM." ".") = false
      ∧ ∃ (m : Msg) (w1 : World),
        newHandler sampleLib 600 sampleResolverWithHosts (sampleEnhancer DNSMode.DNSFakeIP)
            (sampleRequest "Example.COM." TypeA) sampleWorld
          = Outcome.ret (some m) none w1
        ∧ m.Answer = [RR.A { Name := "Example.COM.", Rrtype := TypeA, Class := ClassINET, Ttl := 60 }
                        [192, 0, 2, 1]]
        ∧ w1.tags = [DNSType.Host] ∧ w1.lookups = [] ∧ w1.mapping = [] ∧ w1.exchanges = [] := by
  refine ⟨rfl, rfl, by decide, ?_⟩
  obtain ⟨m, w1, h1, _, h3, _, h5, h6, h7, h8⟩ :=
    newHandler_local_hosts_first sampleLib 600 sampleResolverWithHosts
      (sampleEnhancer DNSMode.DNSFakeIP) (sampleRequest "Example.COM." TypeA) sampleWorld
      sampleHosts { Name := "Example.COM.", Qtype := TypeA, Qclass := ClassINET } []
      [[192, 0, 2, 1], [32, 1, 13, 184, 0, 0, 0, 0, 0, 0, 0, 0, 0, 0, 0, 1]]
      rfl rfl rfl (by decide) ⟨[192, 0, 2, 1], by decide, by decide⟩
  refine ⟨m, w1, h1, ?_, h5, h6, h7, h8⟩
  rw [h3]
  decide

/-! ### `withHosts` on AAAA queries -/

/-- C19, the code at the failing input: for an AAAA query for a name whose
address list holds one IPv4 address, `withHosts` does not call `next`; it
answers with an AAAA record that carries the IPv4 address in its 16-byte
form, tagged Host, because `To16` is not nil for an IPv4 address. -/
theorem withHosts_AAAA_answers_IPv4 :
    sampleHostsV4.Search (ToLower (TrimRight "v4.example." "."))
        = some (HostData.ips [[192, 0, 2, 1]])
      ∧ To4 [192, 0, 2, 1] = some [192, 0, 2, 1]
      ∧ To16 [192, 0, 2, 1] = some [0, 0, 0, 0, 0, 0, 0, 0, 0, 0, 255, 255, 192, 0, 2, 1]
      ∧ ∃ m : Msg,
          (∀ next : handler,
            withHosts sampleHostsV4 next (sampleRequest "v4.example." TypeAAAA) sampleWorld
              = Outcome.ret (some m) none (sampleWorld.SetType DNSType.Host))
          ∧ m.Answer
              = [RR.AAAA { Name := "v4.example.", Rrtype := TypeAAAA, Class := ClassINET, Ttl := 60 }
                  [0, 0, 0, 0, 0, 0, 0, 0, 0, 0, 255, 255, 192, 0, 2, 1]] := by
  refine ⟨by decide, by decide, by decide, _, fun _ => rfl, by decide⟩

/-! ### `LoadHosts` -/

/-- C17, the code at the failing input: for the hosts file with the lines
"1.1.1.1 Foo" and "2.2.2.2 foo", the record under "foo" holds one address
only, and which one depends on the order in which `range` visits the map: the
address of "foo" when "Foo" is visited first, that of "Foo" when it is visited
last; in neither order both addresses. -/
theorem LoadHosts_case_variants_overwrite :
    (LoadHosts sampleParseIP sampleIPtoPTR sampleOrderFirst
        (some ["1.1.1.1 Foo", "2.2.2.2 foo"])).map (fun t => t.Search "foo")
        = some (some (HostData.ips [[0, 0, 0, 0, 0, 0, 0, 0, 0, 0, 255, 255, 2, 2, 2, 2]]))
      ∧ (LoadHosts sampleParseIP sampleIPtoPTR sampleOrderLast
          (some ["1.1.1.1 Foo", "2.2.2.2 foo"])).map (fun t => t.Search "foo")
        = some (some (HostData.ips [[0, 0, 0, 0, 0, 0, 0, 0, 0, 0, 255, 255, 1, 1, 1, 1]]))
      ∧ (LoadHosts sampleParseIP sampleIPtoPTR sampleOrderFirst
          (some ["1.1.1.1 Foo", "2.2.2.2 foo"])).map (fun t => t.Search "foo")
        ≠ some (some (HostData.ips [[0, 0, 0, 0, 0, 0, 0, 0, 0, 0, 255, 255, 1, 1, 1, 1],
            [0, 0, 0, 0, 0, 0, 0, 0, 0, 0, 255, 255, 2, 2, 2, 2]]))
      ∧ (LoadHosts sampleParseIP sampleIPtoPTR sampleOrderLast
          (some ["1.1.1.1 Foo", "2.2.2.2 foo"])).map (fun t => t.Search "foo")
        ≠ some (some (HostData.ips [[0, 0, 0, 0, 0, 0, 0, 0, 0, 0, 255, 255, 1, 1, 1, 1],
            [0, 0, 0, 0, 0, 0, 0, 0, 0, 0, 255, 255, 2, 2, 2, 2]])) := by
  refine ⟨by decide, by decide, by decide, by decide⟩

theorem hostsLine_ignored (ParseIP : String → Option IP) (IPtoPTR : IP → String)
    (hp : GoMap (List IP) × GoMap (List String)) (text : String)
    (h : lineIgnored ParseIP text) : hostsLine ParseIP IPtoPTR hp text = hp := by
  unfold hostsLine
  simp only
  split
  · rfl
  · split
    · rfl
    · rename_i h1 h2
      rcases h with h | h | h | ⟨tok, rest, hw, hparse⟩
      · simp [h] at h1
      · simp [h] at h1
      · exact absurd h h2
      · rw [hw]
        simp [hostsWordsLoop, hparse]

/-- C18, the code at the failing input: a line whose only character outside
ASCII is a no-break space at its end is read, although it holds a non-ASCII
character: `strings.TrimSpace` removes the no-break space before the test for
non-ASCII characters, so the line adds a record that is absent without it. -/
theorem LoadHosts_reads_line_with_trailing_nbsp :
    containNonASCII ("1.1.1.1 foo" ++ String.mk [Char.ofNat 160]) = true
      ∧ TrimSpace ("1.1.1.1 foo" ++ String.mk [Char.ofNat 160]) = "1.1.1.1 foo"
      ∧ (LoadHosts sampleParseIP sampleIPtoPTR sampleOrderFirst
          (some ["1.1.1.1 foo" ++ String.mk [Char.ofNat 160]])).map (fun t => t.Search "foo")
        = some (some (HostData.ips [[0, 0, 0, 0, 0, 0, 0, 0, 0, 0, 255, 255, 1, 1, 1, 1]]))
      ∧ (LoadHosts sampleParseIP sampleIPtoPTR sampleOrderFirst (some [])).map
          (fun t => t.Search "foo")
        = some none := by
  refine ⟨by decide, by decide, by decide, by decide⟩

theorem scanLines_cons_short (text : String) (rest : List String)
    (h : text.utf8ByteSize < MaxScanTokenSize) :
    scanLines (text :: rest) = dropCR text :: scanLines rest := by
  simp [scanLines, List.takeWhile_cons, h]

theorem scanLines_cons_long (text : String) (rest : List String)
    (h : MaxScanTokenSize ≤ text.utf8ByteSize) : scanLines (text :: rest) = [] := by
  have h2 : ¬ text.utf8ByteSize < MaxScanTokenSize := Nat.not_lt.mpr h
  simp [scanLines, List.takeWhile_cons, h2]

/-- A line of `MaxScanTokenSize` bytes or more, whatever it holds, ends the
reading: the table is that of the lines in front of it. -/
theorem LoadHosts_stops_at_long_line (ParseIP : String → Option IP) (IPtoPTR : IP → String)
    (order : MapOrder) (before after : List String) (text : String)
    (h : MaxScanTokenSize ≤ text.utf8ByteSize) :
    LoadHosts ParseIP IPtoPTR order (some (before ++ text :: after))
      = LoadHosts ParseIP IPtoPTR order (some before) := by
  have hscan : scanLines (before ++ text :: after) = scanLines before := by
    induction before with
    | nil => rw [List.nil_append, scanLines_cons_long text after h]; rfl
    | cons b bs ih =>
      by_cases hb : b.utf8ByteSize < MaxScanTokenSize
      · rw [List.cons_append, scanLines_cons_short b _ hb, scanLines_cons_short b _ hb, ih]
      · rw [List.cons_append, scanLines_cons_long b _ (Nat.le_of_not_lt hb),
          scanLines_cons_long b _ (Nat.le_of_not_lt hb)]
  simp only [LoadHosts, hscan]

/-- What holds of comment lines and of lines without address: a line of less than
`MaxScanTokenSize` bytes whose text, as the scanner gives it, is a comment
after trimming, or holds a non-ASCII character after trimming, or has a first
word that is no address, adds nothing: the hosts table built with such a line
anywhere among the lines is the table built without it, for every order of
visiting the maps. -/
theorem LoadHosts_ignores_line (ParseIP : String → Option IP) (IPtoPTR : IP → String)
    (order : MapOrder) (before after : List String) (text : String)
    (hshort : text.utf8ByteSize < MaxScanTokenSize)
    (h : lineIgnored ParseIP (dropCR text)) :
    LoadHosts ParseIP IPtoPTR order (some (before ++ text :: after))
      = LoadHosts ParseIP IPtoPTR order (some (before ++ after)) := by
  have hfold : ∀ init : GoMap (List IP) × GoMap (List String),
      (scanLines (before ++ text :: after)).foldl (hostsLine ParseIP IPtoPTR) init
        = (scanLines (before ++ after)).foldl (hostsLine ParseIP IPtoPTR) init := by
    induction before with
    | nil =>
      intro init
      rw [List.nil_append, List.nil_append, scanLines_cons_short text after hshort,
        List.foldl_cons, hostsLine_ignored ParseIP IPtoPTR init (dropCR text) h]
    | cons b bs ih =>
      intro init
      by_cases hb : b.utf8ByteSize < MaxScanTokenSize
      · rw [List.cons_append, List.cons_append, scanLines_cons_short b _ hb,
          scanLines_cons_short b _ hb, List.foldl_cons, List.foldl_cons, ih]
      · rw [List.cons_append, List.cons_append, scanLines_cons_long b _ (Nat.le_of_not_lt hb),
          scanLines_cons_long b _ (Nat.le_of_not_lt hb)]
  simp only [LoadHosts, hfold]

theorem LoadHosts_ignores_line_witness :
    "  # 3.3.3.3 baz".utf8ByteSize < MaxScanTokenSize
      ∧ lineIgnored sampleParseIP (dropCR "  # 3.3.3.3 baz")
      ∧ LoadHosts sampleParseIP sampleIPtoPTR sampleOrderFirst
          (some (["1.1.1.1 foo"] ++ "  # 3.3.3.3 baz" :: ["2.2.2.2 bar"]))
        = LoadHosts sampleParseIP sampleIPtoPTR sampleOrderFirst
          (some (["1.1.1.1 foo"] ++ ["2.2.2.2 bar"])) :=
  ⟨by decide, Or.inl (by decide),
    LoadHosts_ignores_line sampleParseIP sampleIPtoPTR sampleOrderFirst ["1.1.1.1 foo"]
      ["2.2.2.2 bar"] "  # 3.3.3.3 baz" (by decide) (Or.inl (by decide))⟩

/-- The same echo with an address list that holds no IPv4 address: the only
record of the reply is the one the request carried, and the test
`len(msg.Answer) > 0` takes it for an answer of the table. -/
theorem withHosts_A_reply_of_request_record_alone :
    let x : RR := RR.other { Name := "example.com.", Rrtype := 6, Class := ClassINET, Ttl := 300 } []
    let r : Msg := { sampleRequest "v6.example." TypeA with Answer := [x] }
    To4 [32, 1, 13, 184, 0, 0, 0, 0, 0, 0, 0, 0, 0, 0, 0, 1] = none
      ∧ ∃ m : Msg,
          (∀ next : handler,
            withHosts sampleHostsV6 next r sampleWorld
              = Outcome.ret (some m) none (sampleWorld.SetType DNSType.Host))
          ∧ m.Answer = [x] := by
  refine ⟨by decide, _, fun _ => rfl, by decide⟩

/-- C12, the code at the failing input: in FakeIP mode with `sampleHosts` as
the local table, an A query for a name of that table that itself carries a
record with TTL 300 in its Answer section gets that record back in front of
the A record of the table; the stage order holds (Host is the only tag, no
lookup, no cache write, no exchange), but the answer is not the table's IPv4
addresses with TTL 60. -/
theorem newHandler_local_hosts_echoes_request_answer :
    let q : Question := { Name := "Example.COM.", Qtype := TypeA, Qclass := ClassINET }
    let x : RR := RR.other { Name := "example.com.", Rrtype := 6, Class := ClassINET, Ttl := 300 } []
    let r : Msg := { sampleRequest "Example.COM." TypeA with Answer := [x] }
    (sampleEnhancer DNSMode.DNSFakeIP).mode = DNSMode.DNSFakeIP
      ∧ sampleResolverWithHosts.localHosts = some sampleHosts
      ∧ r.Question = [q] ∧ q.Qtype = TypeA
      ∧ sampleHosts.Search (ToLower (TrimRight q.Name "."))
          = some (HostData.ips [[192, 0, 2, 1], [32, 1, 13, 184, 0, 0, 0, 0, 0, 0, 0, 0, 0, 0, 0, 1]])
      ∧ ∃ m : Msg,
          newHandler sampleLib 600 sampleResolverWithHosts (sampleEnhancer DNSMode.DNSFakeIP)
              r sampleWorld
            = Outcome.ret (some m) none
                { tags := [DNSType.Host], mapping := [], lookups := [], exchanges := [],
                  nowReads := 0 }
          ∧ m.Answer = [x, RR.A { Name := "Example.COM.", Rrtype := TypeA, Class := ClassINET, Ttl := 60 } [192, 0, 2, 1]]
          ∧ x.Header.Ttl = 300
          ∧ m.Answer ≠ expectedARecords q [[192, 0, 2, 1], [32, 1, 13, 184, 0, 0, 0, 0, 0, 0, 0, 0, 0, 0, 0, 1]] := by
  refine ⟨rfl, rfl, rfl, rfl, by decide, _, rfl, by decide, rfl, by decide⟩

end Dns
